import Mathlib

/-!
Verification of the FlowPilot task-state machine.

The definitions below are a shallow embedding of the domain module
`src/src/application/workflow-service.ts` (which bundles the application
service `WorkflowService`, the domain module `task-store`, and its unit
tests).  Pure transition functions are embedded as Lean functions; the
service layer is embedded as a state-and-event-trace transformer; the
JavaScript object graph (aliasing and in-place mutation) is embedded as an
explicit heap of cells for the frame/immutability claims.

JavaScript modelling conventions used throughout:
- `Map`/`Set` become association/plain lists with the same first/last-wins
  lookup semantics as the source (`Map.set` overwrites, so lookups return
  the last inserted binding).
- `null`/`undefined` become `Option`.
- JS falsiness tests on strings (`if (summary)`, `if (!firstId)`) are
  modelled exactly: both `null` and the empty string are falsy.
- Thrown `Error`s become `Except` errors carrying structured data instead
  of the formatted (Chinese) message text.
- JS strings are modelled as Lean strings (lists of Unicode scalar
  values); `trim()` removes the ECMAScript whitespace and line-terminator
  characters (`jsWhitespace`), `slice(0, n)` counts UTF-16 code units
  (`jsSlice`; where the unit budget would split a surrogate pair JS keeps
  a lone high surrogate, which a scalar-value string cannot hold, so the
  model ends the slice before it), `split('\n')[0]` becomes head of
  `splitOn`.
-/

set_option maxHeartbeats 1000000

namespace FlowPilot

/-- Modelled from the spec: the per-task status enumeration of
`src/src/domain/types` (the file itself is absent from the sources);
the five values are those of spec section 3 and are the ones the code
matches on. -/
inductive TaskStatus where
  | pending
  | active
  | done
  | skipped
  | failed
deriving DecidableEq, Repr

/-- Modelled from the spec: the workflow status enumeration of
`src/src/domain/types` (absent from the sources). -/
inductive WorkflowStatus where
  | idle
  | running
  | finishing
  | completed
  | aborted
deriving DecidableEq, Repr

/-- Modelled from the spec: the closed task-type set of spec section 3. -/
inductive TaskType where
  | frontend
  | backend
  | general
deriving DecidableEq, Repr

/-- Modelled from the spec: the `TaskEntry` record of `src/src/domain/types`
(absent from the sources); the fields are exactly those the code constructs
in `WorkflowService.init` and the tests construct in the helper `t`. -/
structure TaskEntry where
  id : String
  title : String
  description : String
  type : TaskType
  status : TaskStatus
  deps : List String
  summary : String
  retries : Nat
deriving DecidableEq, Repr

/-- Modelled from the spec: the `ProgressData` aggregate of
`src/src/domain/types` (absent from the sources). -/
structure ProgressData where
  name : String
  status : WorkflowStatus
  current : Option String
  tasks : List TaskEntry
deriving DecidableEq, Repr

/-- `buildIndex` + `Map.get`: id → entry lookup where later entries
overwrite earlier ones (`Map.set` semantics), so the lookup returns the
last entry carrying the id. -/
def idxGet : List TaskEntry → String → Option TaskEntry
  | [], _ => none
  | t :: rest, i =>
    match idxGet rest i with
    | some u => some u
    | none => if t.id = i then some t else none

/-- The spread copy `({ ...t })` taken at the head of `cascadeSkip`. -/
def copyTask (t : TaskEntry) : TaskEntry :=
  { id := t.id, title := t.title, description := t.description, type := t.type,
    status := t.status, deps := t.deps, summary := t.summary, retries := t.retries }

/-- The fixed annotation written by `cascadeSkip`. -/
def skipSummary : String := "依赖任务失败，已跳过"

/-- The replacement object `{ ...t, status: 'skipped', summary: ... }`. -/
def skipTask (t : TaskEntry) : TaskEntry :=
  { t with status := TaskStatus.skipped, summary := skipSummary }

/-- The blocked test of one `cascadeSkip` pass: some dependency resolves (in
the pass-start snapshot index) to a `failed` or `skipped` task. -/
def depBlocked (snapshot : List TaskEntry) (t : TaskEntry) : Bool :=
  t.deps.any fun d =>
    match idxGet snapshot d with
    | some dep => dep.status == TaskStatus.failed || dep.status == TaskStatus.skipped
    | none => false

/-- One inner `for` pass of `cascadeSkip`: each slot is replaced when its
task is `pending` and blocked against the pass-start snapshot (the source
mutates `result[i]` but reads each slot before writing it and keeps `idx`
pointing at the pass-start objects, so a single pass is a map over the
snapshot); the Bool is the `changed` flag. -/
def cascadePassGo (snapshot : List TaskEntry) : List TaskEntry → List TaskEntry × Bool
  | [] => ([], false)
  | t :: rest =>
    let p := cascadePassGo snapshot rest
    if t.status == TaskStatus.pending && depBlocked snapshot t then
      (skipTask t :: p.1, true)
    else
      (t :: p.1, p.2)

/-- One full `while` iteration body of `cascadeSkip`. -/
def cascadePass (ts : List TaskEntry) : List TaskEntry × Bool :=
  cascadePassGo ts ts

/-- The `while (changed)` loop of `cascadeSkip`.  The source loop terminates
because every changing pass strictly decreases the number of `pending`
tasks; the fuel below is instantiated with `tasks.length + 1`, which the
lemmas prove sufficient to reach the fixpoint. -/
def cascadeLoop : Nat → List TaskEntry → List TaskEntry
  | 0, ts => ts
  | fuel + 1, ts =>
    let p := cascadePass ts
    if p.2 then cascadeLoop fuel p.1 else p.1

/-- `cascadeSkip`: copy every task, then iterate passes to the fixpoint. -/
def cascadeSkip (tasks : List TaskEntry) : List TaskEntry :=
  cascadeLoop (tasks.length + 1) (tasks.map copyTask)

/-- The DFS bookkeeping of `detectCycles`: `visited`/`inStack` sets and the
`parent` map (consing a binding models `Map.set` on a key that is never
re-set; `pget` returns the newest binding). -/
structure DfsSt where
  visited : List String
  inStack : List String
  parent : List (String × String)
deriving Repr

/-- `parent.get`: newest binding first. -/
def pget (p : List (String × String)) (k : String) : Option String :=
  (p.find? fun e => e.1 == k).map Prod.snd

/-- The `while (cur !== dep)` walk of `detectCycles` collecting the stack
nodes strictly between the current node and the repeated node, following
`parent` pointers.  The source loop terminates because the parent chain
walks down the recursion stack; the fuel is instantiated with the stack
length at the call site.  `parent.get(cur)!` is modelled with a dummy
self-default that the invariants prove unreachable. -/
def chainToRoot (parent : List (String × String)) : Nat → String → String → List String
  | 0, _, _ => []
  | fuel + 1, dep, cur =>
    if cur = dep then []
    else cur :: chainToRoot parent fuel dep ((pget parent cur).getD cur)

/-- The cycle list built by `detectCycles` when `dep` is found on the
stack while scanning the deps of `v`: `[dep, …ancestors of v up to dep
reversed…, v, dep]`. -/
def mkCycle (parent : List (String × String)) (fuel : Nat) (dep v : String) : List String :=
  dep :: ((chainToRoot parent fuel dep v).reverse ++ [dep])

/-- The dependency loop inside `dfs`, parameterised by the recursive call
(`rec` is the DFS at the remaining fuel): skip visited non-stack deps,
report a cycle on a stack hit, recurse into unvisited deps after recording
their parent. -/
def dfsDepsAux (rec : String → DfsSt → DfsSt × Option (List String)) (v : String) :
    List String → DfsSt → DfsSt × Option (List String)
  | [], st => (st, none)
  | d :: rest, st =>
    if d ∈ st.visited then
      if d ∈ st.inStack then
        (st, some (mkCycle st.parent st.inStack.length d v))
      else
        dfsDepsAux rec v rest st
    else
      let st' : DfsSt := { st with parent := (d, v) :: st.parent }
      match rec d st' with
      | (st2, some c) => (st2, some c)
      | (st2, none) => dfsDepsAux rec v rest st2

/-- The recursive `dfs` of `detectCycles`: mark visited and on-stack,
scan deps (none when the id is not in the index), pop the stack when no
cycle was found.  The source recursion terminates because `dfs` is only
entered on unvisited nodes; the fuel is instantiated in `detectCycles`
with a bound the lemmas prove sufficient. -/
def dfsVisit (tasks : List TaskEntry) : Nat → String → DfsSt → DfsSt × Option (List String)
  | 0, _, st => (st, none)
  | fuel + 1, v, st =>
    let st1 : DfsSt := { st with visited := v :: st.visited, inStack := v :: st.inStack }
    match idxGet tasks v with
    | none => ({ st1 with inStack := st1.inStack.erase v }, none)
    | some task =>
      match dfsDepsAux (dfsVisit tasks fuel) v task.deps st1 with
      | (st2, some c) => (st2, some c)
      | (st2, none) => ({ st2 with inStack := st2.inStack.erase v }, none)

/-- Fuel bound for `dfsVisit`: more than the number of id occurrences
anywhere in the task list (every DFS entry permanently marks a fresh such
id visited). -/
def dfsFuel (tasks : List TaskEntry) : Nat :=
  (tasks.map TaskEntry.id ++ (tasks.map TaskEntry.deps).flatten).length + 1

/-- The outer `for (const t of tasks)` loop of `detectCycles`. -/
def detectLoop (tasks : List TaskEntry) : List TaskEntry → DfsSt → Option (List String)
  | [], _ => none
  | t :: rest, st =>
    if t.id ∈ st.visited then detectLoop tasks rest st
    else
      match dfsVisit tasks (dfsFuel tasks) t.id st with
      | (_, some c) => some c
      | (st', none) => detectLoop tasks rest st'

/-- `detectCycles`: DFS from every task id over the `deps` edges. -/
def detectCycles (tasks : List TaskEntry) : Option (List String) :=
  detectLoop tasks tasks { visited := [], inStack := [], parent := [] }

/-- The per-task eligibility test of `findNextTask`: `pending`, and every
dependency id resolves in the full index to a `done` task. -/
def eligCond (all : List TaskEntry) (t : TaskEntry) : Bool :=
  t.status == TaskStatus.pending &&
    t.deps.all (fun d => (idxGet all d).map TaskEntry.status == some TaskStatus.done)

/-- The selection loop of `findNextTask`: first `pending` task all of whose
deps resolve to `done` tasks in the full index. -/
def findNextLoop (all : List TaskEntry) : List TaskEntry → Option TaskEntry
  | [] => none
  | t :: rest =>
    if eligCond all t then
      some t
    else
      findNextLoop all rest

/-- `findNextTask`: cycle check restricted to `pending` tasks (throwing the
cycle), then first eligible task in stored order. -/
def findNextTask (tasks : List TaskEntry) : Except (List String) (Option TaskEntry) :=
  let pendings := tasks.filter fun t => t.status == TaskStatus.pending
  match detectCycles pendings with
  | some c => Except.error c
  | none => Except.ok (findNextLoop tasks tasks)

/-- `findParallelTasks`: same cycle check, then all eligible `pending`
tasks.  The source resolves deps here with `tasks.find` (first match), not
with the index, and invokes `cascadeSkip(tasks)` discarding its result (a
no-op on values, so it is omitted here). -/
def findParallelTasks (tasks : List TaskEntry) : Except (List String) (List TaskEntry) :=
  let pendings := tasks.filter fun t => t.status == TaskStatus.pending
  match detectCycles pendings with
  | some c => Except.error c
  | none =>
    Except.ok (tasks.filter fun t =>
      t.status == TaskStatus.pending &&
      t.deps.all fun d =>
        match tasks.find? (fun x => x.id == d) with
        | some dep => dep.status == TaskStatus.done
        | none => false)

/-- Structured form of the `任务 … 不存在` error thrown by the transition
functions. -/
inductive DomainErr where
  | taskNotFound (id : String)
deriving DecidableEq, Repr

/-- `completeTask`: requires the id to be in the index; marks every entry
carrying the id `done` with the given summary and clears `current`. -/
def completeTask (data : ProgressData) (i s : String) : Except DomainErr ProgressData :=
  match idxGet data.tasks i with
  | none => Except.error (DomainErr.taskNotFound i)
  | some _ =>
    Except.ok
      { data with
        current := none,
        tasks := data.tasks.map (fun t =>
          if t.id = i then { t with status := TaskStatus.done, summary := s } else t) }

/-- The `result` discriminator returned by `failTask`. -/
inductive FailKind where
  | retry
  | skip
deriving DecidableEq, Repr

/-- `failTask`: requires the id to be in the index; increments the retries
read from the indexed entry, then marks the task `failed` (result `skip`)
when the post-increment count reaches 3 and `pending` (result `retry`)
otherwise; clears `current` either way. -/
def failTask (data : ProgressData) (i : String) : Except DomainErr (FailKind × ProgressData) :=
  match idxGet data.tasks i with
  | none => Except.error (DomainErr.taskNotFound i)
  | some old =>
    let retries := old.retries + 1
    if retries ≥ 3 then
      Except.ok (FailKind.skip,
        { data with
          current := none,
          tasks := data.tasks.map (fun t =>
            if t.id = i then { t with retries := retries, status := TaskStatus.failed } else t) })
    else
      Except.ok (FailKind.retry,
        { data with
          current := none,
          tasks := data.tasks.map (fun t =>
            if t.id = i then { t with retries := retries, status := TaskStatus.pending } else t) })

/-- The per-entry replacement applied by the `tasks.map` inside
`failTask` (`{ ...t, retries, status }` on the matching id). -/
def failUpd (i : String) (r : Nat) (st : TaskStatus) (t : TaskEntry) : TaskEntry :=
  if t.id = i then { t with retries := r, status := st } else t

/-- JS falsiness of a nullable string: `null`/`undefined` and `""`. -/
def strOptFalsy (s : Option String) : Bool :=
  s == none || s == some ""

/-- The `tasks.map` of `resumeProgress` together with the captured mutable
`firstId` variable (`if (!firstId) firstId = t.id` is a JS falsiness test,
so an empty-string id would not latch). -/
def resumeMap : List TaskEntry → Option String → List TaskEntry × Option String
  | [], fid => ([], fid)
  | t :: rest, fid =>
    if t.status == TaskStatus.active then
      let fid' := if strOptFalsy fid then some t.id else fid
      let p := resumeMap rest fid'
      ({ t with status := TaskStatus.pending } :: p.1, p.2)
    else
      let p := resumeMap rest fid
      (t :: p.1, p.2)

/-- `resumeProgress`: no-op (with `current` as reset id only when the
workflow is `running`) when no task is `active`; otherwise resets all
`active` tasks to `pending`, sets the workflow `running`, clears `current`
and reports the first latched id. -/
def resumeProgress (data : ProgressData) : ProgressData × Option String :=
  if data.tasks.any (fun t => t.status == TaskStatus.active) then
    let p := resumeMap data.tasks none
    ({ data with current := none, status := WorkflowStatus.running, tasks := p.1 }, p.2)
  else
    (data, if data.status == WorkflowStatus.running then data.current else none)

/-- `isAllDone`: every task is in a terminal status. -/
def isAllDone (tasks : List TaskEntry) : Bool :=
  tasks.all fun t =>
    t.status == TaskStatus.done || t.status == TaskStatus.skipped ||
    t.status == TaskStatus.failed

/-! ### Specification-side predicates (mathematical graph notions) -/

/-- The dependency edge relation walked by `detectCycles`: `a → b` when the
index resolves `a` to a task and `b` is one of its dependency ids. -/
def Edge (tasks : List TaskEntry) (a b : String) : Prop :=
  ∃ t, idxGet tasks a = some t ∧ b ∈ t.deps

/-- A dependency cycle exists: some id reaches itself in at least one
edge step. -/
def HasCycle (tasks : List TaskEntry) : Prop :=
  ∃ a, Relation.TransGen (Edge tasks) a a

/-- `c` is a concrete cycle witness: a nonempty edge walk starting and
ending at the same id. -/
def IsCycleIn (tasks : List TaskEntry) (c : List String) : Prop :=
  ∃ a l, c = a :: l ∧ l ≠ [] ∧ List.Chain (Edge tasks) a l ∧ l.getLast? = some a

/-- The `pending`-restricted task list that `findNextTask` and
`findParallelTasks` run cycle detection on. -/
def pendingOf (tasks : List TaskEntry) : List TaskEntry :=
  tasks.filter fun t => t.status == TaskStatus.pending

/-- Reachability along dependency edges. -/
def Reaches (tasks : List TaskEntry) (a b : String) : Prop :=
  Relation.ReflTransGen (Edge tasks) a b

/-- `v` is safe: no node reachable from `v` lies on a cycle. -/
def Safe (tasks : List TaskEntry) (v : String) : Prop :=
  ∀ w, Reaches tasks v w → ¬ Relation.TransGen (Edge tasks) w w

/-- The DFS stack `a₀ :: a₁ :: …` is a parent chain: each entry's `parent`
lookup is the next entry, which has an edge to it. -/
def chainLinks (tasks : List TaskEntry) (parent : List (String × String)) : List String → Prop
  | [] => True
  | [_] => True
  | a :: b :: rest =>
    pget parent a = some b ∧ Edge tasks b a ∧ chainLinks tasks parent (b :: rest)

/-- Every id occurring anywhere in the task list (as a task id or inside a
deps array); the DFS only ever visits such ids. -/
def allIds (tasks : List TaskEntry) : List String :=
  tasks.map TaskEntry.id ++ (tasks.map TaskEntry.deps).flatten

/-- Number of ids the DFS may still discover; the variant of the
recursion. -/
def unvis (tasks : List TaskEntry) (visited : List String) : Nat :=
  ((allIds tasks).dedup.filter (fun x => decide (x ∉ visited))).length

/-- DFS soundness invariant: every visited node that is no longer on the
stack has been fully explored and found safe. -/
def safeDone (tasks : List TaskEntry) (st : DfsSt) : Prop :=
  ∀ x ∈ st.visited, x ∉ st.inStack → Safe tasks x

/-- Claim-side eligibility: `pending`, and every dependency id resolves in
the full index to a `done` task (an absent id counts as not done). -/
def EligibleSpec (all : List TaskEntry) (t : TaskEntry) : Prop :=
  t.status = TaskStatus.pending ∧
  ∀ d ∈ t.deps, ∃ u, idxGet all d = some u ∧ u.status = TaskStatus.done

/-- Claim-side characterisation of cascade skipping: a `pending` task whose
dependency set reaches, through `pending` tasks that are themselves being
skipped, a task that is already `failed` or `skipped`. -/
inductive Skippable (tasks : List TaskEntry) : TaskEntry → Prop where
  | direct {t : TaskEntry} {d : String} {dep : TaskEntry} :
      t.status = TaskStatus.pending → d ∈ t.deps → idxGet tasks d = some dep →
      (dep.status = TaskStatus.failed ∨ dep.status = TaskStatus.skipped) →
      Skippable tasks t
  | through {t : TaskEntry} {d : String} {dep : TaskEntry} :
      t.status = TaskStatus.pending → d ∈ t.deps → idxGet tasks d = some dep →
      Skippable tasks dep →
      Skippable tasks t

/-! ### Heap embedding of the JS object graph

The frame/immutability claims are about in-place mutation of shared
objects, so for them the task objects and the aggregate object live in an
explicit heap of cells addressed by allocation order; the transition
functions are re-expressed as heap transformers that read old cells and
allocate the replacement objects exactly where the source writes an object
spread.  `none` models a heap-type fault that cannot occur on well-formed
inputs.  JS arrays of object references are modelled as immutable lists of
addresses (the source never mutates a caller-supplied array in the
functions below; freshly `map`-created arrays are new list values). -/

/-- An aggregate object: `ProgressData` whose `tasks` array holds
references to task cells. -/
structure AggObj where
  name : String
  status : WorkflowStatus
  current : Option String
  tasks : List Nat
deriving DecidableEq, Repr

/-- A heap cell: a task object or an aggregate object. -/
inductive Cell where
  | task (t : TaskEntry)
  | agg (a : AggObj)
deriving DecidableEq, Repr

/-- The heap: cells addressed by allocation order. -/
structure Heap where
  cells : List Cell
deriving DecidableEq, Repr

/-- Dereference an address. -/
def Heap.read (h : Heap) (r : Nat) : Option Cell :=
  h.cells[r]?

/-- Allocate a new cell, returning its address. -/
def Heap.alloc (h : Heap) (c : Cell) : Heap × Nat :=
  ({ cells := h.cells ++ [c] }, h.cells.length)

/-- Read a task cell. -/
def readTask (h : Heap) (r : Nat) : Option TaskEntry :=
  match h.read r with
  | some (Cell.task t) => some t
  | _ => none

/-- Read an aggregate cell. -/
def readAgg (h : Heap) (r : Nat) : Option AggObj :=
  match h.read r with
  | some (Cell.agg a) => some a
  | _ => none

/-- Dereference a task array. -/
def readTasks : Heap → List Nat → Option (List TaskEntry)
  | _, [] => some []
  | h, r :: rs =>
    match readTask h r with
    | none => none
    | some t =>
      match readTasks h rs with
      | none => none
      | some ts => some (t :: ts)

/-- Read back a whole aggregate as a `ProgressData` value. -/
def readAggData (h : Heap) (r : Nat) : Option ProgressData :=
  match readAgg h r with
  | none => none
  | some a =>
    match readTasks h a.tasks with
    | none => none
    | some ts => some { name := a.name, status := a.status, current := a.current, tasks := ts }

/-- `h'` extends `h`: every pre-existing cell is unchanged (allocation
only, no in-place writes). -/
def HeapExt (h h' : Heap) : Prop :=
  h.cells.length ≤ h'.cells.length ∧ ∀ r < h.cells.length, h'.read r = h.read r

/-- The `tasks.map(t => t.id === id ? { ...t, … } : t)` pattern over the
heap: keep the reference when `upd` declines, allocate the replacement
object when it fires. -/
def mapAllocTasks (upd : TaskEntry → Option TaskEntry) : Heap → List Nat → Option (Heap × List Nat)
  | h, [] => some (h, [])
  | h, r :: rs =>
    match readTask h r with
    | none => none
    | some t =>
      match upd t with
      | some t' =>
        let p := h.alloc (Cell.task t')
        match mapAllocTasks upd p.1 rs with
        | none => none
        | some (h2, rs') => some (h2, p.2 :: rs')
      | none =>
        match mapAllocTasks upd h rs with
        | none => none
        | some (h2, rs') => some (h2, r :: rs')

/-- Heap form of `completeTask`: reads the aggregate and its tasks, checks
the index, allocates the updated task objects and a new aggregate object
(`{ ...data, current: null, tasks }`), touching no existing cell. -/
def completeTaskH (h : Heap) (r : Nat) (i s : String) : Option (Heap × Except DomainErr Nat) :=
  match readAgg h r with
  | none => none
  | some a =>
    match readTasks h a.tasks with
    | none => none
    | some ts =>
      match idxGet ts i with
      | none => some (h, Except.error (DomainErr.taskNotFound i))
      | some _ =>
        match mapAllocTasks
            (fun t => if t.id = i then some { t with status := TaskStatus.done, summary := s } else none)
            h a.tasks with
        | none => none
        | some (h1, refs) =>
          let p := h1.alloc (Cell.agg { name := a.name, status := a.status, current := none, tasks := refs })
          some (p.1, Except.ok p.2)

/-- Heap form of `failTask`. -/
def failTaskH (h : Heap) (r : Nat) (i : String) : Option (Heap × Except DomainErr (FailKind × Nat)) :=
  match readAgg h r with
  | none => none
  | some a =>
    match readTasks h a.tasks with
    | none => none
    | some ts =>
      match idxGet ts i with
      | none => some (h, Except.error (DomainErr.taskNotFound i))
      | some old =>
        let retries := old.retries + 1
        if retries ≥ 3 then
          match mapAllocTasks
              (fun t => if t.id = i then some { t with retries := retries, status := TaskStatus.failed } else none)
              h a.tasks with
          | none => none
          | some (h1, refs) =>
            let p := h1.alloc (Cell.agg { name := a.name, status := a.status, current := none, tasks := refs })
            some (p.1, Except.ok (FailKind.skip, p.2))
        else
          match mapAllocTasks
              (fun t => if t.id = i then some { t with retries := retries, status := TaskStatus.pending } else none)
              h a.tasks with
          | none => none
          | some (h1, refs) =>
            let p := h1.alloc (Cell.agg { name := a.name, status := a.status, current := none, tasks := refs })
            some (p.1, Except.ok (FailKind.retry, p.2))

/-- Heap form of the `tasks.map` inside `resumeProgress` with the captured
`firstId` variable. -/
def resumeMapH : Heap → List Nat → Option String → Option (Heap × List Nat × Option String)
  | h, [], fid => some (h, [], fid)
  | h, r :: rs, fid =>
    match readTask h r with
    | none => none
    | some t =>
      if t.status == TaskStatus.active then
        let fid' := if strOptFalsy fid then some t.id else fid
        let p := h.alloc (Cell.task { t with status := TaskStatus.pending })
        match resumeMapH p.1 rs fid' with
        | none => none
        | some (h2, rs', f) => some (h2, p.2 :: rs', f)
      else
        match resumeMapH h rs fid with
        | none => none
        | some (h2, rs', f) => some (h2, r :: rs', f)

/-- Heap form of `resumeProgress`: in the no-active case the very same
aggregate reference is returned and the heap is untouched. -/
def resumeProgressH (h : Heap) (r : Nat) : Option (Heap × Nat × Option String) :=
  match readAgg h r with
  | none => none
  | some a =>
    match readTasks h a.tasks with
    | none => none
    | some ts =>
      if ts.any (fun t => t.status == TaskStatus.active) then
        match resumeMapH h a.tasks none with
        | none => none
        | some (h1, refs, fid) =>
          let p := h1.alloc (Cell.agg { name := a.name, status := WorkflowStatus.running, current := none, tasks := refs })
          some (p.1, p.2, fid)
      else
        some (h, r, if a.status == WorkflowStatus.running then a.current else none)

/-- Heap form of the spread-copy prologue `tasks.map(t => ({ ...t }))` of
`cascadeSkip`. -/
def copyAllH : Heap → List Nat → Option (Heap × List Nat)
  | h, [] => some (h, [])
  | h, r :: rs =>
    match readTask h r with
    | none => none
    | some t =>
      let p := h.alloc (Cell.task (copyTask t))
      match copyAllH p.1 rs with
      | none => none
      | some (h2, rs') => some (h2, p.2 :: rs')

/-- Heap form of one inner pass of `cascadeSkip` (the snapshot is the
dereferenced pass-start array, playing the role of `idx`). -/
def cascadeInnerH (snapshot : List TaskEntry) : Heap → List Nat → Option (Heap × List Nat × Bool)
  | h, [] => some (h, [], false)
  | h, r :: rs =>
    match readTask h r with
    | none => none
    | some t =>
      if t.status == TaskStatus.pending && depBlocked snapshot t then
        let p := h.alloc (Cell.task (skipTask t))
        match cascadeInnerH snapshot p.1 rs with
        | none => none
        | some (h2, rs', _) => some (h2, p.2 :: rs', true)
      else
        match cascadeInnerH snapshot h rs with
        | none => none
        | some (h2, rs', c) => some (h2, r :: rs', c)

/-- Heap form of the `while (changed)` loop of `cascadeSkip`. -/
def cascadeLoopH : Nat → Heap → List Nat → Option (Heap × List Nat)
  | 0, h, rs => some (h, rs)
  | fuel + 1, h, rs =>
    match readTasks h rs with
    | none => none
    | some snap =>
      match cascadeInnerH snap h rs with
      | none => none
      | some (h1, rs1, changed) =>
        if changed then cascadeLoopH fuel h1 rs1 else some (h1, rs1)

/-- Heap form of `cascadeSkip`. -/
def cascadeSkipH (h : Heap) (rs : List Nat) : Option (Heap × List Nat) :=
  match copyAllH h rs with
  | none => none
  | some (h1, rs1) => cascadeLoopH (rs.length + 1) h1 rs1

/-! ### Orchestrator embedding

`WorkflowService.next`, `nextBatch` and `checkpoint` are embedded as
functions of the persisted progress (the repository's durable state) that
return the new persisted progress, the trace of collaborator effects in
call order, and the structured result.  External collaborator responses
(`loadSummary`, `loadTaskContext`, `commit`, and the failure-pattern
warning) are parameters; user-facing message text is abstracted into
structured outcomes; logging is not modelled.  `appendFailureContext` and
`detectFailurePattern` are private methods whose bodies are absent from the
sources — modelled from the spec: the former records failure context (an
effect), the latter is a read-only similarity check whose verdict is the
`patternWarn` parameter. -/

/-- Structured forms of the errors `WorkflowService` raises. -/
inductive WfError where
  | noWorkflow
  | tasksStillActive (ids : List String)
  | taskNotFound (id : String)
  | taskNotActive (id : String) (st : TaskStatus)
  | checkpointEmpty (id : String)
  | cyclicDependency (cycle : List String)
deriving DecidableEq, Repr

/-- Collaborator calls recorded in order. -/
inductive Effect where
  | lockE
  | unlockE
  | saveProgressE (d : ProgressData)
  | saveTaskContextE (id text : String)
  | updateSummaryE (d : ProgressData)
  | appendFailureContextE (id : String)
  | commitE (id : String) (files : Option (List String))
  | tagE (id : String)
  | hookStartE (id : String)
  | hookCompleteE (id : String)
deriving DecidableEq, Repr

/-- Whether a trace contains a `saveProgress` call. -/
def hasSaveProgress (es : List Effect) : Bool :=
  es.any fun e =>
    match e with
    | Effect.saveProgressE _ => true
    | _ => false

/-- The context assembly of `next`/`nextBatch`: rolling summary then each
dependency's stored output, with JS-falsy (empty) parts dropped, joined
with the separator. -/
def assembleContext (summary : String) (ctx : String → Option String) (deps : List String) : String :=
  let parts := (if summary == "" then [] else [summary]) ++
    deps.filterMap fun d =>
      match ctx d with
      | some c => if c == "" then none else some c
      | none => none
  String.intercalate "\n\n---\n\n" parts

/-- `WorkflowService.next`. -/
def nextModel (prog : Option ProgressData) (summary : String) (ctx : String → Option String) :
    Option ProgressData × List Effect × Except WfError (Option (TaskEntry × String)) :=
  match prog with
  | none => (prog, [Effect.lockE, Effect.unlockE], Except.error WfError.noWorkflow)
  | some data =>
    if isAllDone data.tasks then
      (prog, [Effect.lockE, Effect.unlockE], Except.ok none)
    else
      let active := data.tasks.filter fun t => t.status == TaskStatus.active
      if active.isEmpty then
        let cascaded := cascadeSkip data.tasks
        match findNextTask cascaded with
        | Except.error c =>
          (prog, [Effect.lockE, Effect.unlockE], Except.error (WfError.cyclicDependency c))
        | Except.ok none =>
          (some { data with tasks := cascaded },
           [Effect.lockE, Effect.saveProgressE { data with tasks := cascaded }, Effect.unlockE],
           Except.ok none)
        | Except.ok (some task) =>
          let activated := cascaded.map fun t =>
            if t.id = task.id then { t with status := TaskStatus.active } else t
          let newData := { data with current := some task.id, tasks := activated }
          (some newData,
           [Effect.lockE, Effect.saveProgressE newData, Effect.hookStartE task.id, Effect.unlockE],
           Except.ok (some (task, assembleContext summary ctx task.deps)))
      else
        (prog, [Effect.lockE, Effect.unlockE],
         Except.error (WfError.tasksStillActive (active.map TaskEntry.id)))

/-- `WorkflowService.nextBatch`. -/
def nextBatchModel (prog : Option ProgressData) (summary : String) (ctx : String → Option String) :
    Option ProgressData × List Effect × Except WfError (List (TaskEntry × String)) :=
  match prog with
  | none => (prog, [Effect.lockE, Effect.unlockE], Except.error WfError.noWorkflow)
  | some data =>
    if isAllDone data.tasks then
      (prog, [Effect.lockE, Effect.unlockE], Except.ok [])
    else
      let active := data.tasks.filter fun t => t.status == TaskStatus.active
      if active.isEmpty then
        let cascaded := cascadeSkip data.tasks
        match findParallelTasks cascaded with
        | Except.error c =>
          (prog, [Effect.lockE, Effect.unlockE], Except.error (WfError.cyclicDependency c))
        | Except.ok tasks =>
          if tasks.isEmpty then
            (some { data with tasks := cascaded },
             [Effect.lockE, Effect.saveProgressE { data with tasks := cascaded }, Effect.unlockE],
             Except.ok [])
          else
            let activeIds := tasks.map TaskEntry.id
            let activated := cascaded.map fun t =>
              if t.id ∈ activeIds then { t with status := TaskStatus.active } else t
            let newData := { data with current := (tasks.head?).map TaskEntry.id, tasks := activated }
            (some newData,
             [Effect.lockE, Effect.saveProgressE newData] ++
               tasks.map (fun t => Effect.hookStartE t.id) ++ [Effect.unlockE],
             Except.ok (tasks.map fun t => (t, assembleContext summary ctx t.deps)))
      else
        (prog, [Effect.lockE, Effect.unlockE],
         Except.error (WfError.tasksStillActive (active.map TaskEntry.id)))

/-- The character set removed by JavaScript `String.prototype.trim`: the
ECMAScript `WhiteSpace` production (TAB U+0009, VT U+000B, FF U+000C,
SP U+0020, NBSP U+00A0, ZWNBSP U+FEFF and every Unicode `Space_Separator`:
U+1680, U+2000..U+200A, U+202F, U+205F, U+3000) together with the
`LineTerminator` production (LF U+000A, CR U+000D, LS U+2028, PS U+2029). -/
def jsWhitespace (c : Char) : Bool :=
  c.toNat == 0x09 || c.toNat == 0x0A || c.toNat == 0x0B || c.toNat == 0x0C ||
  c.toNat == 0x0D || c.toNat == 0x20 || c.toNat == 0xA0 || c.toNat == 0x1680 ||
  (decide (0x2000 ≤ c.toNat) && decide (c.toNat ≤ 0x200A)) ||
  c.toNat == 0x2028 || c.toNat == 0x2029 || c.toNat == 0x202F ||
  c.toNat == 0x205F || c.toNat == 0x3000 || c.toNat == 0xFEFF

/-- The JS `detail.trim()` test: drop leading and trailing characters of
the ECMAScript trim set (spelled out structurally over the character list
so that it is kernel-evaluable). -/
def jsTrim (s : String) : String :=
  String.mk (((s.data.dropWhile jsWhitespace).reverse.dropWhile jsWhitespace).reverse)

/-- UTF-16 length of a character: codepoints above U+FFFF are a surrogate
pair, two code units. -/
def utf16Len (c : Char) : Nat :=
  if c.toNat < 0x10000 then 1 else 2

/-- JS `slice(0, n)`: take characters while they fit in a budget of `n`
UTF-16 code units, as JavaScript counts them.  Where the budget would
split a surrogate pair JS keeps a lone high surrogate; a lone surrogate is
not a Unicode scalar value and cannot occur in a Lean `Char`, so the model
ends the slice before the split character (identical to the source
whenever the cut does not fall inside a pair — in particular on every
first line whose first 80 units are BMP characters). -/
def jsSliceUnits (n : Nat) : List Char → List Char
  | [] => []
  | c :: rest =>
    if utf16Len c ≤ n then c :: jsSliceUnits (n - utf16Len c) rest
    else []

/-- The source's `s.slice(0, n)` over the scalar-value string model. -/
def jsSlice (s : String) (n : Nat) : String :=
  String.mk (jsSliceUnits n s.data)

/-- Structured result of `checkpoint` (the formatted message is abstracted:
which branch was taken, whether a repeat-failure warning was attached,
whether all tasks are now terminal, whether the commit failed). -/
inductive CheckpointOutcome where
  | failedRetry (warned : Bool)
  | failedSkip (warned : Bool)
  | completed (allDone : Bool) (commitFailed : Bool)
deriving DecidableEq, Repr

/-- `WorkflowService.checkpoint`. -/
def checkpointModel (prog : Option ProgressData) (i detail : String) (files : Option (List String))
    (commitRes : Option String) (patternWarn : Option String) :
    Option ProgressData × List Effect × Except WfError CheckpointOutcome :=
  match prog with
  | none => (prog, [Effect.lockE, Effect.unlockE], Except.error WfError.noWorkflow)
  | some data =>
    match data.tasks.find? (fun t => t.id == i) with
    | none => (prog, [Effect.lockE, Effect.unlockE], Except.error (WfError.taskNotFound i))
    | some task =>
      if task.status ≠ TaskStatus.active then
        (prog, [Effect.lockE, Effect.unlockE], Except.error (WfError.taskNotActive i task.status))
      else if detail = "FAILED" then
        match failTask data i with
        | Except.error (DomainErr.taskNotFound j) =>
          (prog, [Effect.lockE, Effect.appendFailureContextE i, Effect.unlockE],
           Except.error (WfError.taskNotFound j))
        | Except.ok (result, newData) =>
          (some newData,
           [Effect.lockE, Effect.appendFailureContextE i, Effect.saveProgressE newData, Effect.unlockE],
           Except.ok (match result with
             | FailKind.retry => CheckpointOutcome.failedRetry patternWarn.isSome
             | FailKind.skip => CheckpointOutcome.failedSkip patternWarn.isSome))
      else if jsTrim detail = "" then
        (prog, [Effect.lockE, Effect.unlockE], Except.error (WfError.checkpointEmpty i))
      else
        let summaryLine := jsSlice ((detail.splitOn "\n").headD "") 80
        match completeTask data i summaryLine with
        | Except.error (DomainErr.taskNotFound j) =>
          (prog, [Effect.lockE, Effect.unlockE], Except.error (WfError.taskNotFound j))
        | Except.ok newData =>
          (some newData,
           [Effect.lockE, Effect.saveProgressE newData,
            Effect.saveTaskContextE i ("# task-" ++ i ++ ": " ++ task.title ++ "\n\n" ++ detail ++ "\n"),
            Effect.updateSummaryE newData, Effect.commitE i files] ++
             (if strOptFalsy commitRes then [Effect.tagE i] else []) ++
             [Effect.hookCompleteE i],
           Except.ok (CheckpointOutcome.completed (isAllDone newData.tasks) (!(strOptFalsy commitRes))))

/-! ### Concrete fixtures used by witness and counterexample theorems -/

/-- A minimal task value for concrete instantiations. -/
def wTask (i : String) (s : TaskStatus) (ds : List String) : TaskEntry :=
  { id := i, title := "t" ++ i, description := "", type := TaskType.general,
    status := s, deps := ds, summary := "", retries := 0 }

/-- A minimal aggregate for concrete instantiations. -/
def wData (ts : List TaskEntry) : ProgressData :=
  { name := "wf", status := WorkflowStatus.running, current := none, tasks := ts }

/-- Aggregate-object fixture for the heap witnesses. -/
def wAgg : AggObj :=
  { name := "wf", status := WorkflowStatus.running, current := some "001", tasks := [0] }

/-- Heap fixture: one task cell and one aggregate cell. -/
def wHeap : Heap :=
  { cells := [Cell.task (wTask "001" TaskStatus.active []), Cell.agg wAgg] }

/-- The value the heap fixture's aggregate reads back as. -/
def wProg : ProgressData :=
  { name := "wf", status := WorkflowStatus.running, current := some "001",
    tasks := [wTask "001" TaskStatus.active []] }

/-- Witness fixture: an acyclic task list with an eligible task. -/
def cAcy : List TaskEntry :=
  [wTask "001" TaskStatus.done [], wTask "002" TaskStatus.pending ["001"]]

/-- Witness fixture: a pending two-cycle. -/
def cCyc : List TaskEntry :=
  [wTask "001" TaskStatus.pending ["002"], wTask "002" TaskStatus.pending ["001"]]

/-! ### Lemmas about the index -/

theorem idxGet_mem {ts : List TaskEntry} {i : String} {t : TaskEntry}
    (h : idxGet ts i = some t) : t ∈ ts ∧ t.id = i := by
  induction ts with
  | nil => simp [idxGet] at h
  | cons a rest ih =>
    simp only [idxGet] at h
    cases hr : idxGet rest i with
    | some u =>
      rw [hr] at h
      cases h
      exact ⟨List.mem_cons_of_mem _ (ih hr).1, (ih hr).2⟩
    | none =>
      rw [hr] at h
      by_cases ha : a.id = i
      · rw [if_pos ha] at h
        cases h
        exact ⟨List.mem_cons_self _ _, ha⟩
      · rw [if_neg ha] at h
        cases h

theorem idxGet_eq_none_iff {ts : List TaskEntry} {i : String} :
    idxGet ts i = none ↔ ∀ t ∈ ts, t.id ≠ i := by
  induction ts with
  | nil => simp [idxGet]
  | cons a rest ih =>
    simp only [idxGet]
    cases hr : idxGet rest i with
    | some u =>
      simp only [List.mem_cons]
      constructor
      · intro h; cases h
      · intro h
        exact absurd ((idxGet_mem hr).2) (h u (Or.inr (idxGet_mem hr).1))
    | none =>
      by_cases ha : a.id = i
      · simp [ha]
      · simp only [if_neg ha, List.mem_cons]
        constructor
        · intro _ t ht
          rcases ht with rfl | ht
          · exact ha
          · exact ih.mp hr t ht
        · intro _
          trivial

theorem idxGet_isSome_of_mem {ts : List TaskEntry} {t : TaskEntry}
    (hmem : t ∈ ts) : (idxGet ts t.id).isSome := by
  cases h : idxGet ts t.id with
  | some u => rfl
  | none => exact absurd rfl (idxGet_eq_none_iff.mp h t hmem)

theorem idxGet_map {f : TaskEntry → TaskEntry} (hf : ∀ t, (f t).id = t.id)
    (ts : List TaskEntry) (i : String) :
    idxGet (ts.map f) i = (idxGet ts i).map f := by
  induction ts with
  | nil => simp [idxGet]
  | cons a rest ih =>
    simp only [List.map_cons, idxGet, ih]
    cases hr : idxGet rest i with
    | some u => simp
    | none =>
      simp only [Option.map_none']
      rw [hf a]
      by_cases ha : a.id = i
      · simp [ha]
      · simp [ha]

theorem nodup_id_unique {ts : List TaskEntry} (hnd : (ts.map TaskEntry.id).Nodup)
    {t u : TaskEntry} (ht : t ∈ ts) (hu : u ∈ ts) (hid : t.id = u.id) : t = u := by
  induction ts with
  | nil => cases ht
  | cons a rest ih =>
    simp only [List.map_cons, List.nodup_cons] at hnd
    rcases List.mem_cons.mp ht with rfl | ht' <;>
      rcases List.mem_cons.mp hu with rfl | hu'
    · rfl
    · exact absurd (hid ▸ List.mem_map_of_mem TaskEntry.id hu') hnd.1
    · exact absurd (hid ▸ List.mem_map_of_mem TaskEntry.id ht') hnd.1
    · exact ih hnd.2 ht' hu'

/-! ### The cascade fixpoint -/

theorem copyTask_eq (t : TaskEntry) : copyTask t = t := rfl

theorem map_copyTask (ts : List TaskEntry) : ts.map copyTask = ts := by
  simp [funext copyTask_eq, List.map_id]

/-- The per-slot replacement condition of one pass. -/
def passCond (snap : List TaskEntry) (t : TaskEntry) : Bool :=
  t.status == TaskStatus.pending && depBlocked snap t

theorem cascadePassGo_fst (snap : List TaskEntry) :
    ∀ l : List TaskEntry,
      (cascadePassGo snap l).1 = l.map (fun t => if passCond snap t then skipTask t else t) := by
  intro l
  induction l with
  | nil => rfl
  | cons t rest ih =>
    simp only [cascadePassGo, List.map_cons, passCond]
    by_cases hc : (t.status == TaskStatus.pending && depBlocked snap t) = true
    · simp [hc, ih, passCond]
    · simp only [Bool.not_eq_true] at hc
      simp [hc, ih, passCond]

theorem cascadePassGo_snd (snap : List TaskEntry) :
    ∀ l : List TaskEntry, (cascadePassGo snap l).2 = l.any (passCond snap) := by
  intro l
  induction l with
  | nil => rfl
  | cons t rest ih =>
    simp only [cascadePassGo, List.any_cons, passCond]
    by_cases hc : (t.status == TaskStatus.pending && depBlocked snap t) = true
    · simp [hc]
    · simp only [Bool.not_eq_true] at hc
      simp [hc, ih, passCond]

theorem cascadePassGo_snd_false (snap : List TaskEntry) (l : List TaskEntry)
    (h : (cascadePassGo snap l).2 = false) : (cascadePassGo snap l).1 = l := by
  rw [cascadePassGo_snd] at h
  rw [cascadePassGo_fst]
  conv_rhs => rw [(List.map_id l).symm]
  apply List.map_congr_left
  intro t ht
  have : passCond snap t = false := by
    rcases List.any_eq_false.mp h t ht with h2
    simpa using h2
  simp [this]

theorem cascadePassGo_length (snap : List TaskEntry) (l : List TaskEntry) :
    (cascadePassGo snap l).1.length = l.length := by
  rw [cascadePassGo_fst]
  exact List.length_map _ _

theorem skipTask_not_pending (t : TaskEntry) :
    ((skipTask t).status == TaskStatus.pending) = false := rfl

/-- Number of `pending` tasks, the variant of the `while (changed)` loop. -/
theorem cascadePassGo_pending_le (snap : List TaskEntry) :
    ∀ l : List TaskEntry,
      (pendingOf (cascadePassGo snap l).1).length ≤ (pendingOf l).length := by
  intro l
  induction l with
  | nil => simp [cascadePassGo]
  | cons t rest ih =>
    rw [cascadePassGo_fst] at ih ⊢
    simp only [List.map_cons, pendingOf, List.filter_cons]
    by_cases hc : passCond snap t = true
    · have hp : (t.status == TaskStatus.pending) = true := by
        rw [passCond, Bool.and_eq_true] at hc
        exact hc.1
      simp only [hc, if_true, skipTask_not_pending, Bool.false_eq_true, ite_false, hp, if_pos,
        List.length_cons]
      simp only [pendingOf] at ih
      omega
    · simp only [Bool.not_eq_true] at hc
      simp only [hc, Bool.false_eq_true, ite_false]
      by_cases hp : (t.status == TaskStatus.pending) = true
      · simp only [hp, if_pos, List.length_cons]
        simp only [pendingOf] at ih
        omega
      · simp only [Bool.not_eq_true] at hp
        simp only [hp, Bool.false_eq_true, ite_false]
        simpa [pendingOf] using ih

theorem cascadePassGo_pending_lt (snap : List TaskEntry) :
    ∀ l : List TaskEntry, (cascadePassGo snap l).2 = true →
      (pendingOf (cascadePassGo snap l).1).length < (pendingOf l).length := by
  intro l
  induction l with
  | nil => intro h; simp [cascadePassGo] at h
  | cons t rest ih =>
    intro h
    rw [cascadePassGo_snd, List.any_cons, Bool.or_eq_true] at h
    rw [cascadePassGo_fst]
    rw [cascadePassGo_fst] at ih
    simp only [List.map_cons, pendingOf, List.filter_cons]
    by_cases hc : passCond snap t = true
    · have hp : (t.status == TaskStatus.pending) = true := by
        rw [passCond, Bool.and_eq_true] at hc
        exact hc.1
      simp only [hc, if_true, skipTask_not_pending, Bool.false_eq_true, ite_false, hp, if_pos,
        List.length_cons]
      have := cascadePassGo_pending_le snap rest
      rw [cascadePassGo_fst] at this
      simp only [pendingOf] at this
      omega
    · rcases h with h | h
      · exact absurd h hc
      · have hlt := ih (by rw [cascadePassGo_snd]; exact h)
        simp only [Bool.not_eq_true] at hc
        simp only [hc, Bool.false_eq_true, ite_false]
        by_cases hp : (t.status == TaskStatus.pending) = true
        · simp only [hp, if_pos, List.length_cons]
          simp only [pendingOf] at hlt
          omega
        · simp only [Bool.not_eq_true] at hp
          simp only [hp, Bool.false_eq_true, ite_false]
          simpa [pendingOf] using hlt

theorem cascadeLoop_fix :
    ∀ (fuel : Nat) (ts : List TaskEntry), (pendingOf ts).length + 1 ≤ fuel →
      (cascadePass (cascadeLoop fuel ts)).2 = false := by
  intro fuel
  induction fuel with
  | zero => intro ts h; omega
  | succ n ih =>
    intro ts h
    simp only [cascadeLoop]
    by_cases hc : (cascadePass ts).2 = true
    · simp only [hc, if_true]
      apply ih
      have := cascadePassGo_pending_lt ts ts hc
      simp only [cascadePass] at *
      omega
    · simp only [Bool.not_eq_true] at hc
      simp only [hc, Bool.false_eq_true, ite_false]
      have h1 : (cascadePass ts).1 = ts := cascadePassGo_snd_false ts ts hc
      rw [h1]
      exact hc

theorem pendingOf_length_le (ts : List TaskEntry) : (pendingOf ts).length ≤ ts.length :=
  List.length_filter_le _ ts

theorem cascadeSkip_fix (ts : List TaskEntry) :
    (cascadePass (cascadeSkip ts)).2 = false := by
  unfold cascadeSkip
  rw [map_copyTask]
  exact cascadeLoop_fix (ts.length + 1) ts (by have := pendingOf_length_le ts; omega)

/-- Claim C5: `cascadeSkip` is idempotent. -/
theorem claim_C5_cascadeSkip_idempotent (ts : List TaskEntry) :
    cascadeSkip (cascadeSkip ts) = cascadeSkip ts := by
  conv_lhs => rw [cascadeSkip]
  rw [map_copyTask]
  have hfix := cascadeSkip_fix ts
  simp only [cascadeLoop, hfix, Bool.false_eq_true, ite_false]
  exact cascadePassGo_snd_false _ _ hfix

/-! ### failTask -/

theorem failUpd_id (i : String) (r : Nat) (st : TaskStatus) (t : TaskEntry) :
    (failUpd i r st t).id = t.id := by
  by_cases h : t.id = i <;> simp [failUpd, h]

theorem failTask_ok {data : ProgressData} {i : String} {task : TaskEntry}
    (h : idxGet data.tasks i = some task) :
    failTask data i = Except.ok
      ((if task.retries + 1 ≥ 3 then FailKind.skip else FailKind.retry),
       { data with
         current := none,
         tasks := data.tasks.map
           (failUpd i (task.retries + 1)
             (if task.retries + 1 ≥ 3 then TaskStatus.failed else TaskStatus.pending)) }) := by
  by_cases hc : task.retries + 1 ≥ 3
  · simp [failTask, h, hc, failUpd]
  · simp [failTask, h, hc, failUpd]

/-- Claim C3: `failTask` increments retries, clears `current`, fails the
task at the third post-increment retry and resets it to `pending` before
that; three chained applications starting from zero retries step through
retry(1), retry(2), skip(3, failed); an absent id raises task-not-found. -/
theorem claim_C3_failTask (data : ProgressData) (i : String) :
    (idxGet data.tasks i = none →
      failTask data i = Except.error (DomainErr.taskNotFound i)) ∧
    (∀ task : TaskEntry, idxGet data.tasks i = some task →
      (data.tasks.map TaskEntry.id).Nodup →
      ∃ nd : ProgressData,
        failTask data i =
          Except.ok ((if task.retries + 1 ≥ 3 then FailKind.skip else FailKind.retry), nd) ∧
        nd.current = none ∧ nd.name = data.name ∧ nd.status = data.status ∧
        nd.tasks.length = data.tasks.length ∧
        (∀ j (hj : j < data.tasks.length) (hj2 : j < nd.tasks.length),
          (data.tasks[j] = task →
            nd.tasks[j] = { task with retries := task.retries + 1, status := if task.retries + 1 ≥ 3 then TaskStatus.failed else TaskStatus.pending }) ∧
          (data.tasks[j] ≠ task → nd.tasks[j] = data.tasks[j]))) ∧
    (∀ task : TaskEntry, idxGet data.tasks i = some task → task.retries = 0 →
      ∃ d1 d2 d3 t1 t2 t3,
        failTask data i = Except.ok (FailKind.retry, d1) ∧
        idxGet d1.tasks i = some t1 ∧ t1.retries = 1 ∧ t1.status = TaskStatus.pending ∧
        failTask d1 i = Except.ok (FailKind.retry, d2) ∧
        idxGet d2.tasks i = some t2 ∧ t2.retries = 2 ∧ t2.status = TaskStatus.pending ∧
        failTask d2 i = Except.ok (FailKind.skip, d3) ∧
        idxGet d3.tasks i = some t3 ∧ t3.retries = 3 ∧ t3.status = TaskStatus.failed) := by
  refine ⟨?_, ?_, ?_⟩
  · intro h
    simp [failTask, h]
  · intro task h hnd
    have hid : task.id = i := (idxGet_mem h).2
    refine ⟨_, failTask_ok h, rfl, rfl, rfl, by simp, ?_⟩
    intro j hj hj2
    constructor
    · intro he
      have hm : (data.tasks.map
          (failUpd i (task.retries + 1)
            (if task.retries + 1 ≥ 3 then TaskStatus.failed else TaskStatus.pending)))[j] =
          failUpd i (task.retries + 1)
            (if task.retries + 1 ≥ 3 then TaskStatus.failed else TaskStatus.pending)
            (data.tasks[j]) := List.getElem_map _
      rw [hm, he]
      simp [failUpd, hid]
    · intro hne
      have hdiff : data.tasks[j].id ≠ i := by
        intro hji
        exact hne (nodup_id_unique hnd (List.getElem_mem _) (idxGet_mem h).1 (hji.trans hid.symm))
      have hm : (data.tasks.map
          (failUpd i (task.retries + 1)
            (if task.retries + 1 ≥ 3 then TaskStatus.failed else TaskStatus.pending)))[j] =
          failUpd i (task.retries + 1)
            (if task.retries + 1 ≥ 3 then TaskStatus.failed else TaskStatus.pending)
            (data.tasks[j]) := List.getElem_map _
      rw [hm]
      simp [failUpd, hdiff]
  · intro task h h0
    have hid : task.id = i := (idxGet_mem h).2
    refine
      ⟨{ data with current := none, tasks := data.tasks.map (failUpd i 1 TaskStatus.pending) },
       { data with
         current := none,
         tasks := (data.tasks.map (failUpd i 1 TaskStatus.pending)).map (failUpd i 2 TaskStatus.pending) },
       { data with
         current := none,
         tasks := ((data.tasks.map (failUpd i 1 TaskStatus.pending)).map (failUpd i 2 TaskStatus.pending)).map (failUpd i 3 TaskStatus.failed) },
       { task with retries := 1, status := TaskStatus.pending },
       { task with retries := 2, status := TaskStatus.pending },
       { task with retries := 3, status := TaskStatus.failed },
       ?_, ?_, rfl, rfl, ?_, ?_, rfl, rfl, ?_, ?_, rfl, rfl⟩
    · have e1 := failTask_ok h
      rw [h0] at e1
      norm_num at e1
      exact e1
    · show idxGet (data.tasks.map (failUpd i 1 TaskStatus.pending)) i =
        some { task with retries := 1, status := TaskStatus.pending }
      rw [idxGet_map (failUpd_id i 1 TaskStatus.pending) data.tasks i, h]
      simp [failUpd, hid]
    · have hm1 : idxGet (data.tasks.map (failUpd i 1 TaskStatus.pending)) i =
          some { task with retries := 1, status := TaskStatus.pending } := by
        rw [idxGet_map (failUpd_id i 1 TaskStatus.pending) data.tasks i, h]
        simp [failUpd, hid]
      have e2 := @failTask_ok
        { data with
          current := none,
          tasks := data.tasks.map (failUpd i 1 TaskStatus.pending) }
        i { task with retries := 1, status := TaskStatus.pending } hm1
      norm_num at e2
      rw [← List.map_map] at e2
      exact e2
    · show idxGet ((data.tasks.map (failUpd i 1 TaskStatus.pending)).map (failUpd i 2 TaskStatus.pending)) i =
        some { task with retries := 2, status := TaskStatus.pending }
      rw [idxGet_map (failUpd_id i 2 TaskStatus.pending) _ i]
      rw [idxGet_map (failUpd_id i 1 TaskStatus.pending) data.tasks i, h]
      simp [failUpd, hid]
    · have hm2 : idxGet ((data.tasks.map (failUpd i 1 TaskStatus.pending)).map (failUpd i 2 TaskStatus.pending)) i =
          some { task with retries := 2, status := TaskStatus.pending } := by
        rw [idxGet_map (failUpd_id i 2 TaskStatus.pending) _ i]
        rw [idxGet_map (failUpd_id i 1 TaskStatus.pending) data.tasks i, h]
        simp [failUpd, hid]
      have e3 := @failTask_ok
        { data with
          current := none,
          tasks := (data.tasks.map (failUpd i 1 TaskStatus.pending)).map (failUpd i 2 TaskStatus.pending) }
        i { task with retries := 2, status := TaskStatus.pending } hm2
      norm_num at e3
      simp only [List.map_map, Function.comp] at e3 ⊢
      exact e3
    · show idxGet (((data.tasks.map (failUpd i 1 TaskStatus.pending)).map (failUpd i 2 TaskStatus.pending)).map (failUpd i 3 TaskStatus.failed)) i =
        some { task with retries := 3, status := TaskStatus.failed }
      rw [idxGet_map (failUpd_id i 3 TaskStatus.failed) _ i]
      rw [idxGet_map (failUpd_id i 2 TaskStatus.pending) _ i]
      rw [idxGet_map (failUpd_id i 1 TaskStatus.pending) data.tasks i, h]
      simp [failUpd, hid]

/-! ### resumeProgress -/

theorem strOptFalsy_some (x : String) : strOptFalsy (some x) = (x == "") := by
  simp [strOptFalsy]

theorem resumeMap_fst : ∀ (ts : List TaskEntry) (fid : Option String),
    (resumeMap ts fid).1 = ts.map (fun t =>
      if t.status = TaskStatus.active then { t with status := TaskStatus.pending } else t) := by
  intro ts
  induction ts with
  | nil => intro fid; rfl
  | cons t rest ih =>
    intro fid
    simp only [resumeMap, List.map_cons]
    by_cases hc : t.status = TaskStatus.active
    · simp [hc, ih]
    · simp [hc, ih]

theorem resumeMap_snd_keep : ∀ (ts : List TaskEntry) (fid : Option String),
    strOptFalsy fid = false → (resumeMap ts fid).2 = fid := by
  intro ts
  induction ts with
  | nil => intro fid _; rfl
  | cons t rest ih =>
    intro fid hfid
    simp only [resumeMap]
    by_cases hc : t.status = TaskStatus.active
    · simp only [hc]
      simp [hfid, ih fid hfid]
    · simp [hc, ih fid hfid]

theorem resumeMap_snd_first : ∀ (ts : List TaskEntry) (fid : Option String),
    strOptFalsy fid = true → (∀ t ∈ ts, t.id ≠ "") →
    (resumeMap ts fid).2 =
      (match ts.find? (fun t => t.status == TaskStatus.active) with
       | some u => some u.id
       | none => fid) := by
  intro ts
  induction ts with
  | nil => intro fid _ _; rfl
  | cons t rest ih =>
    intro fid hfid hne
    simp only [resumeMap]
    by_cases hc : t.status = TaskStatus.active
    · have hfind : (t :: rest).find? (fun t => t.status == TaskStatus.active) = some t :=
        List.find?_cons_of_pos _ (by simpa using hc)
      rw [hfind]
      simp only [hc, if_pos, hfid, if_true]
      have hnf : strOptFalsy (some t.id) = false := by
        rw [strOptFalsy_some]
        simpa using hne t (List.mem_cons_self t rest)
      simp [resumeMap_snd_keep rest (some t.id) hnf]
    · have hfind : (t :: rest).find? (fun t => t.status == TaskStatus.active) =
          rest.find? (fun t => t.status == TaskStatus.active) :=
        List.find?_cons_of_neg _ (by simpa using hc)
      rw [hfind]
      have := ih fid hfid (fun u hu => hne u (List.mem_cons_of_mem t hu))
      simp [hc, this]

theorem find?_first {p : TaskEntry → Bool} : ∀ {ts : List TaskEntry} {u : TaskEntry},
    ts.find? p = some u →
    ∃ j, ∃ hj : j < ts.length, ts[j] = u ∧ p u = true ∧
      ∀ k, ∀ hk : k < ts.length, k < j → p (ts[k]) = false := by
  intro ts
  induction ts with
  | nil => intro u h; simp at h
  | cons t rest ih =>
    intro u h
    by_cases hp : p t = true
    · rw [List.find?_cons_of_pos _ hp] at h
      cases h
      exact ⟨0, by simp, rfl, hp, fun k hk hk0 => absurd hk0 (Nat.not_lt_zero k)⟩
    · have hp' : p t = false := by
        cases hpt : p t
        · rfl
        · exact absurd hpt hp
      rw [List.find?_cons_of_neg _ (by simp [hp'])] at h
      obtain ⟨j, hj, hju, hpu, hfirst⟩ := ih h
      refine ⟨j + 1, by simpa using Nat.succ_lt_succ hj, by simpa using hju, hpu, ?_⟩
      intro k hk hkj
      cases k with
      | zero => simpa using hp'
      | succ k' =>
        have hk' : k' < rest.length := by simpa using Nat.lt_of_succ_lt_succ hk
        have := hfirst k' hk' (Nat.lt_of_succ_lt_succ hkj)
        simpa using this

/-- Claim C4: `resumeProgress` is a no-op when no task is active (reporting
`current` as reset id exactly when the workflow is running); otherwise it
resets every active task to `pending`, forces the workflow `running`,
clears `current` and reports the first active task's id (task ids are
non-empty JS-truthy strings per the data model, which the `firstId`
latch relies on). -/
theorem claim_C4_resumeProgress (data : ProgressData) :
    ((∀ t ∈ data.tasks, t.status ≠ TaskStatus.active) →
      resumeProgress data =
        (data, if data.status = WorkflowStatus.running then data.current else none)) ∧
    ((∃ t ∈ data.tasks, t.status = TaskStatus.active) →
      (∀ t ∈ data.tasks, t.id ≠ "") →
      ∃ j, ∃ hj : j < data.tasks.length,
        data.tasks[j].status = TaskStatus.active ∧
        (∀ k, ∀ hk : k < data.tasks.length, k < j → data.tasks[k].status ≠ TaskStatus.active) ∧
        resumeProgress data =
          ({ data with
             current := none,
             status := WorkflowStatus.running,
             tasks := data.tasks.map (fun t =>
               if t.status = TaskStatus.active then { t with status := TaskStatus.pending } else t) },
           some (data.tasks[j]).id)) := by
  constructor
  · intro h
    have hany : data.tasks.any (fun t => t.status == TaskStatus.active) = false := by
      rw [List.any_eq_false]
      intro t ht
      simpa using h t ht
    simp [resumeProgress, hany]
  · intro hex hne
    have hany : data.tasks.any (fun t => t.status == TaskStatus.active) = true := by
      rw [List.any_eq_true]
      obtain ⟨t, ht, hs⟩ := hex
      exact ⟨t, ht, by simpa using hs⟩
    have hsome : ∃ u, data.tasks.find? (fun t => t.status == TaskStatus.active) = some u := by
      cases hf : data.tasks.find? (fun t => t.status == TaskStatus.active) with
      | some u => exact ⟨u, rfl⟩
      | none =>
        obtain ⟨t, ht, hs⟩ := hex
        have := List.find?_eq_none.mp hf t ht
        exact absurd (by simpa using hs) this
    obtain ⟨u, hu⟩ := hsome
    obtain ⟨j, hj, hju, hpu, hfirst⟩ := find?_first hu
    refine ⟨j, hj, ?_, ?_, ?_⟩
    · rw [hju]; simpa using hpu
    · intro k hk hkj
      have := hfirst k hk hkj
      simpa using this
    · simp only [resumeProgress, hany, if_pos]
      rw [resumeMap_fst, resumeMap_snd_first data.tasks none rfl hne, hu, hju]

/-- Witness for C4 at a concrete aggregate with two active tasks. -/
theorem claim_C4_resumeProgress_witness :
    ∃ j, ∃ hj : j < (wData [wTask "001" TaskStatus.active [], wTask "002" TaskStatus.active [],
        wTask "003" TaskStatus.done []]).tasks.length,
      (wData [wTask "001" TaskStatus.active [], wTask "002" TaskStatus.active [],
        wTask "003" TaskStatus.done []]).tasks[j].status = TaskStatus.active ∧
      (∀ k, ∀ hk : k < (wData [wTask "001" TaskStatus.active [], wTask "002" TaskStatus.active [],
        wTask "003" TaskStatus.done []]).tasks.length, k < j →
        (wData [wTask "001" TaskStatus.active [], wTask "002" TaskStatus.active [],
          wTask "003" TaskStatus.done []]).tasks[k].status ≠ TaskStatus.active) ∧
      resumeProgress (wData [wTask "001" TaskStatus.active [], wTask "002" TaskStatus.active [],
        wTask "003" TaskStatus.done []]) =
        ({ (wData [wTask "001" TaskStatus.active [], wTask "002" TaskStatus.active [],
            wTask "003" TaskStatus.done []]) with
           current := none,
           status := WorkflowStatus.running,
           tasks := (wData [wTask "001" TaskStatus.active [], wTask "002" TaskStatus.active [],
             wTask "003" TaskStatus.done []]).tasks.map (fun t =>
               if t.status = TaskStatus.active then { t with status := TaskStatus.pending } else t) },
         some ((wData [wTask "001" TaskStatus.active [], wTask "002" TaskStatus.active [],
           wTask "003" TaskStatus.done []]).tasks[j]).id) :=
  (claim_C4_resumeProgress _).2
    ⟨wTask "001" TaskStatus.active [], by simp [wData], rfl⟩
    (by intro t ht; fin_cases ht <;> simp [wTask])

/-- Witness for C3: a concrete task with zero retries stepping through
retry, retry, skip. -/
theorem claim_C3_failTask_witness :
    ∃ d1 d2 d3 t1 t2 t3,
      failTask (wData [wTask "001" TaskStatus.active []]) "001" = Except.ok (FailKind.retry, d1) ∧
      idxGet d1.tasks "001" = some t1 ∧ t1.retries = 1 ∧ t1.status = TaskStatus.pending ∧
      failTask d1 "001" = Except.ok (FailKind.retry, d2) ∧
      idxGet d2.tasks "001" = some t2 ∧ t2.retries = 2 ∧ t2.status = TaskStatus.pending ∧
      failTask d2 "001" = Except.ok (FailKind.skip, d3) ∧
      idxGet d3.tasks "001" = some t3 ∧ t3.retries = 3 ∧ t3.status = TaskStatus.failed :=
  (claim_C3_failTask (wData [wTask "001" TaskStatus.active []]) "001").2.2
    (wTask "001" TaskStatus.active []) (by simp [idxGet, wData, wTask]) rfl

/-- Claim C10: the empty task list counts as all-done, so `next` and
`nextBatch` on an empty workflow return immediately with no task
activation, no save, no active-task check and no cycle check. -/
theorem claim_C10_emptyTasks :
    isAllDone [] = true ∧
    ∀ (data : ProgressData) (summary : String) (ctx : String → Option String),
      data.tasks = [] →
      nextModel (some data) summary ctx =
        (some data, [Effect.lockE, Effect.unlockE], Except.ok none) ∧
      nextBatchModel (some data) summary ctx =
        (some data, [Effect.lockE, Effect.unlockE], Except.ok []) := by
  refine ⟨rfl, ?_⟩
  intro data summary ctx h
  constructor
  · simp [nextModel, h, isAllDone]
  · simp [nextBatchModel, h, isAllDone]

/-- Witness for C10 at a concrete empty workflow. -/
theorem claim_C10_emptyTasks_witness :
    nextModel (some (wData [])) "" (fun _ => none) =
      (some (wData []), [Effect.lockE, Effect.unlockE], Except.ok none) ∧
    nextBatchModel (some (wData [])) "" (fun _ => none) =
      (some (wData []), [Effect.lockE, Effect.unlockE], Except.ok []) :=
  claim_C10_emptyTasks.2 (wData []) "" (fun _ => none) rfl

/-! ### completeTask and checkpoint -/

theorem completeTask_ok {data : ProgressData} {i : String}
    (h : ∃ u, idxGet data.tasks i = some u) (s : String) :
    completeTask data i s = Except.ok
      { data with
        current := none,
        tasks := data.tasks.map (fun t =>
          if t.id = i then { t with status := TaskStatus.done, summary := s } else t) } := by
  obtain ⟨u, hu⟩ := h
  simp [completeTask, hu]

theorem find?_id_to_idxGet {ts : List TaskEntry} {i : String} {task : TaskEntry}
    (hf : ts.find? (fun t => t.id == i) = some task) :
    ∃ u, idxGet ts i = some u := by
  have htid : task.id = i := by simpa using List.find?_some hf
  have hmem : task ∈ ts := List.mem_of_find?_eq_some hf
  cases hu : idxGet ts i with
  | some u => exact ⟨u, rfl⟩
  | none => exact absurd htid (idxGet_eq_none_iff.mp hu task hmem)

/-- Claim C9: `failTask` ignores the target task's status entirely — even a
`done`/`skipped`/`failed` task is re-incremented and sent to `pending` or
`failed`; terminality is enforced only by `checkpoint`'s active-status
check. -/
theorem claim_C9_failTask_ignores_status (data : ProgressData) (i : String) (task : TaskEntry)
    (h : idxGet data.tasks i = some task)
    (hterm : task.status = TaskStatus.done ∨ task.status = TaskStatus.skipped ∨
      task.status = TaskStatus.failed) :
    failTask data i = Except.ok
      ((if task.retries + 1 ≥ 3 then FailKind.skip else FailKind.retry),
       { data with
         current := none,
         tasks := data.tasks.map
           (failUpd i (task.retries + 1)
             (if task.retries + 1 ≥ 3 then TaskStatus.failed else TaskStatus.pending)) }) ∧
    (∀ (detail : String) (files : Option (List String)) (commitRes patternWarn : Option String),
      data.tasks.find? (fun t => t.id == i) = some task →
      checkpointModel (some data) i detail files commitRes patternWarn =
        (some data, [Effect.lockE, Effect.unlockE],
         Except.error (WfError.taskNotActive i task.status))) := by
  constructor
  · exact failTask_ok h
  · intro detail files commitRes patternWarn hf
    have hna : task.status ≠ TaskStatus.active := by
      rcases hterm with h1 | h1 | h1 <;> simp [h1]
    simp [checkpointModel, hf, hna]

/-- Witness for C9 at a concrete `done` task. -/
theorem claim_C9_failTask_ignores_status_witness :
    failTask (wData [wTask "001" TaskStatus.done []]) "001" = Except.ok
      ((if (wTask "001" TaskStatus.done []).retries + 1 ≥ 3 then FailKind.skip else FailKind.retry),
       { (wData [wTask "001" TaskStatus.done []]) with
         current := none,
         tasks := (wData [wTask "001" TaskStatus.done []]).tasks.map
           (failUpd "001" ((wTask "001" TaskStatus.done []).retries + 1)
             (if (wTask "001" TaskStatus.done []).retries + 1 ≥ 3 then TaskStatus.failed
              else TaskStatus.pending)) }) ∧
    (∀ (detail : String) (files : Option (List String)) (commitRes patternWarn : Option String),
      (wData [wTask "001" TaskStatus.done []]).tasks.find? (fun t => t.id == "001") =
        some (wTask "001" TaskStatus.done []) →
      checkpointModel (some (wData [wTask "001" TaskStatus.done []])) "001" detail files
          commitRes patternWarn =
        (some (wData [wTask "001" TaskStatus.done []]), [Effect.lockE, Effect.unlockE],
         Except.error (WfError.taskNotActive "001" (wTask "001" TaskStatus.done []).status))) :=
  claim_C9_failTask_ignores_status (wData [wTask "001" TaskStatus.done []]) "001"
    (wTask "001" TaskStatus.done []) (by simp [idxGet, wData, wTask]) (Or.inl rfl)

/-- Claim C8: `checkpoint`'s error conditions are exact (task-not-found iff
no task has the id; task-not-active iff it exists but is not `active`;
content-empty, for non-FAILED detail, iff the detail trims to empty), and
the non-FAILED success path marks the task `done` with the first line of
the detail truncated to 80 characters as summary. -/
theorem claim_C8_checkpoint (data : ProgressData) (i detail : String)
    (files : Option (List String)) (commitRes patternWarn : Option String) :
    ((checkpointModel (some data) i detail files commitRes patternWarn).2.2 =
        Except.error (WfError.taskNotFound i) ↔ ∀ t ∈ data.tasks, t.id ≠ i) ∧
    ((∃ st, (checkpointModel (some data) i detail files commitRes patternWarn).2.2 =
        Except.error (WfError.taskNotActive i st)) ↔
      ∃ task, data.tasks.find? (fun t => t.id == i) = some task ∧
        task.status ≠ TaskStatus.active) ∧
    (detail ≠ "FAILED" →
      ((checkpointModel (some data) i detail files commitRes patternWarn).2.2 =
          Except.error (WfError.checkpointEmpty i) ↔
        (∃ task, data.tasks.find? (fun t => t.id == i) = some task ∧
          task.status = TaskStatus.active) ∧ jsTrim detail = "")) ∧
    (∀ task, data.tasks.find? (fun t => t.id == i) = some task →
      task.status = TaskStatus.active → detail ≠ "FAILED" → jsTrim detail ≠ "" →
      ∃ nd, checkpointModel (some data) i detail files commitRes patternWarn =
        (some nd,
         [Effect.lockE, Effect.saveProgressE nd,
          Effect.saveTaskContextE i ("# task-" ++ i ++ ": " ++ task.title ++ "\n\n" ++ detail ++ "\n"),
          Effect.updateSummaryE nd, Effect.commitE i files] ++
          (if strOptFalsy commitRes then [Effect.tagE i] else []) ++ [Effect.hookCompleteE i],
         Except.ok (CheckpointOutcome.completed (isAllDone nd.tasks) (!(strOptFalsy commitRes)))) ∧
        nd.current = none ∧ nd.name = data.name ∧ nd.status = data.status ∧
        nd.tasks = data.tasks.map (fun t =>
          if t.id = i then
            { t with
              status := TaskStatus.done,
              summary := jsSlice ((detail.splitOn "\n").headD "") 80 }
          else t)) := by
  cases hf : data.tasks.find? (fun t => t.id == i) with
  | none =>
    have hnone : ∀ t ∈ data.tasks, t.id ≠ i := by
      intro t ht hti
      have := List.find?_eq_none.mp hf t ht
      simp [hti] at this
    refine ⟨?_, ?_, ?_, ?_⟩
    · simp only [checkpointModel, hf]
      simpa using hnone
    · simp [checkpointModel, hf]
    · intro _
      simp [checkpointModel, hf]
    · intro task h'
      cases h'
  | some task =>
    have htid : task.id = i := by simpa using List.find?_some hf
    have hmem : task ∈ data.tasks := List.mem_of_find?_eq_some hf
    by_cases ha : task.status = TaskStatus.active
    · by_cases hfd : detail = "FAILED"
      · obtain ⟨u, hu⟩ := find?_id_to_idxGet hf
        have hft := failTask_ok hu
        refine ⟨?_, ?_, ?_, ?_⟩
        · apply iff_of_false
          · by_cases hc : u.retries + 1 ≥ 3 <;>
              simp [checkpointModel, hf, ha, hfd, hft, hc]
          · intro hall
            exact hall task hmem htid
        · apply iff_of_false
          · by_cases hc : u.retries + 1 ≥ 3 <;>
              simp [checkpointModel, hf, ha, hfd, hft, hc]
          · rintro ⟨t', ht', hna⟩
            cases ht'
            exact hna ha
        · intro hne
          exact absurd hfd hne
        · intro task' h' ha' hne' htr'
          exact absurd hfd hne'
      · by_cases htr : jsTrim detail = ""
        · refine ⟨?_, ?_, ?_, ?_⟩
          · apply iff_of_false
            · simp [checkpointModel, hf, ha, hfd, htr]
            · intro hall
              exact hall task hmem htid
          · apply iff_of_false
            · simp [checkpointModel, hf, ha, hfd, htr]
            · rintro ⟨t', ht', hna⟩
              cases ht'
              exact hna ha
          · intro _
            apply iff_of_true
            · simp [checkpointModel, hf, ha, hfd, htr]
            · exact ⟨⟨task, rfl, ha⟩, htr⟩
          · intro task' h' ha' hne' htr'
            cases h'
            exact absurd htr htr'
        · have hct := completeTask_ok (find?_id_to_idxGet hf)
            (jsSlice ((detail.splitOn "\n").headD "") 80)
          simp only [List.headD_eq_head?] at hct
          refine ⟨?_, ?_, ?_, ?_⟩
          · apply iff_of_false
            · simp [checkpointModel, hf, ha, hfd, htr, hct]
            · intro hall
              exact hall task hmem htid
          · apply iff_of_false
            · simp [checkpointModel, hf, ha, hfd, htr, hct]
            · rintro ⟨t', ht', hna⟩
              cases ht'
              exact hna ha
          · intro _
            apply iff_of_false
            · simp [checkpointModel, hf, ha, hfd, htr, hct]
            · rintro ⟨_, htr'⟩
              exact htr htr'
          · intro task' h' ha' hne' htr'
            cases h'
            refine
              ⟨{ data with
                 current := none,
                 tasks := data.tasks.map (fun t =>
                   if t.id = i then
                     { t with
                       status := TaskStatus.done,
                       summary := jsSlice ((detail.splitOn "\n").headD "") 80 }
                   else t) }, ?_, rfl, rfl, rfl, rfl⟩
            simp [checkpointModel, hf, ha, hfd, htr, hct]
    · refine ⟨?_, ?_, ?_, ?_⟩
      · apply iff_of_false
        · simp [checkpointModel, hf, ha]
        · intro hall
          exact hall task hmem htid
      · apply iff_of_true
        · exact ⟨task.status, by simp [checkpointModel, hf, ha]⟩
        · exact ⟨task, rfl, ha⟩
      · intro _
        apply iff_of_false
        · simp [checkpointModel, hf, ha]
        · rintro ⟨⟨t', ht', ha'⟩, _⟩
          cases ht'
          exact ha ha'
      · intro task' h' ha'
        cases h'
        exact absurd ha' ha

/-- Witness for C8: the success path at a concrete active task, and the
content-empty error on a detail that is only an ideographic space U+3000
(whitespace for the source's `trim()`). -/
theorem claim_C8_checkpoint_witness :
    (∃ nd, checkpointModel (some (wData [wTask "001" TaskStatus.active []])) "001"
        "line one\nline two" none none none =
      (some nd,
       [Effect.lockE, Effect.saveProgressE nd,
        Effect.saveTaskContextE "001"
          ("# task-" ++ "001" ++ ": " ++ (wTask "001" TaskStatus.active []).title ++
            "\n\n" ++ "line one\nline two" ++ "\n"),
        Effect.updateSummaryE nd, Effect.commitE "001" none] ++
        (if strOptFalsy none then [Effect.tagE "001"] else []) ++ [Effect.hookCompleteE "001"],
       Except.ok (CheckpointOutcome.completed (isAllDone nd.tasks) (!(strOptFalsy none)))) ∧
      nd.current = none ∧ nd.name = (wData [wTask "001" TaskStatus.active []]).name ∧
      nd.status = (wData [wTask "001" TaskStatus.active []]).status ∧
      nd.tasks = (wData [wTask "001" TaskStatus.active []]).tasks.map (fun t =>
        if t.id = "001" then
          { t with
            status := TaskStatus.done,
            summary := jsSlice ((("line one\nline two").splitOn "\n").headD "") 80 }
        else t)) ∧
    (checkpointModel (some (wData [wTask "001" TaskStatus.active []])) "001" "\u3000"
        none none none).2.2 = Except.error (WfError.checkpointEmpty "001") := by
  constructor
  · exact (claim_C8_checkpoint (wData [wTask "001" TaskStatus.active []]) "001"
        "line one\nline two" none none none).2.2.2 (wTask "001" TaskStatus.active [])
      (by simp [wData, wTask]) rfl (by decide) (by decide)
  · exact ((claim_C8_checkpoint (wData [wTask "001" TaskStatus.active []]) "001" "\u3000"
        none none none).2.2.1 (by decide)).mpr
      ⟨⟨wTask "001" TaskStatus.active [], by simp [wData, wTask], rfl⟩, by decide⟩

/-! ### Cyclic-dependency error path of next and nextBatch (claim C7) -/

/-- Counterexample to claim C7: a workflow whose cascade pass skips task
003 (dependent on the failed 004) and whose remaining pending tasks 001
and 002 form a cycle.  `next` raises the cyclic-dependency error, yet its
effect trace contains no `saveProgress` at all and the persisted progress
is unchanged — the cascade result (which differs from the stored tasks)
is lost, contradicting the claimed persist-before-throw. -/
theorem claim_C7_counterexample :
    (nextModel (some (wData [wTask "001" TaskStatus.pending ["002"],
        wTask "002" TaskStatus.pending ["001"], wTask "003" TaskStatus.pending ["004"],
        wTask "004" TaskStatus.failed []])) "" (fun _ => none)).2.2 =
      Except.error (WfError.cyclicDependency ["001", "002", "001"]) ∧
    (nextModel (some (wData [wTask "001" TaskStatus.pending ["002"],
        wTask "002" TaskStatus.pending ["001"], wTask "003" TaskStatus.pending ["004"],
        wTask "004" TaskStatus.failed []])) "" (fun _ => none)).2.1 =
      [Effect.lockE, Effect.unlockE] ∧
    hasSaveProgress (nextModel (some (wData [wTask "001" TaskStatus.pending ["002"],
        wTask "002" TaskStatus.pending ["001"], wTask "003" TaskStatus.pending ["004"],
        wTask "004" TaskStatus.failed []])) "" (fun _ => none)).2.1 = false ∧
    (nextModel (some (wData [wTask "001" TaskStatus.pending ["002"],
        wTask "002" TaskStatus.pending ["001"], wTask "003" TaskStatus.pending ["004"],
        wTask "004" TaskStatus.failed []])) "" (fun _ => none)).1 =
      some (wData [wTask "001" TaskStatus.pending ["002"],
        wTask "002" TaskStatus.pending ["001"], wTask "003" TaskStatus.pending ["004"],
        wTask "004" TaskStatus.failed []]) ∧
    cascadeSkip (wData [wTask "001" TaskStatus.pending ["002"],
        wTask "002" TaskStatus.pending ["001"], wTask "003" TaskStatus.pending ["004"],
        wTask "004" TaskStatus.failed []]).tasks ≠
      (wData [wTask "001" TaskStatus.pending ["002"],
        wTask "002" TaskStatus.pending ["001"], wTask "003" TaskStatus.pending ["004"],
        wTask "004" TaskStatus.failed []]).tasks := by
  exact ⟨rfl, rfl, by decide, rfl, by decide⟩

/-- Amended claim C7: when `next` or `nextBatch` raises the
cyclic-dependency error, no `saveProgress` call has happened in that
invocation and the persisted progress is unchanged; the cascade skips
computed in it are therefore lost (they are persisted only on the
empty-selection and activation paths). -/
theorem claim_C7_amended_cyclic_no_save (prog : Option ProgressData) (summary : String)
    (ctx : String → Option String) (c : List String) :
    ((nextModel prog summary ctx).2.2 = Except.error (WfError.cyclicDependency c) →
      (nextModel prog summary ctx).1 = prog ∧
      (nextModel prog summary ctx).2.1 = [Effect.lockE, Effect.unlockE] ∧
      hasSaveProgress (nextModel prog summary ctx).2.1 = false) ∧
    ((nextBatchModel prog summary ctx).2.2 = Except.error (WfError.cyclicDependency c) →
      (nextBatchModel prog summary ctx).1 = prog ∧
      (nextBatchModel prog summary ctx).2.1 = [Effect.lockE, Effect.unlockE] ∧
      hasSaveProgress (nextBatchModel prog summary ctx).2.1 = false) := by
  constructor
  · intro h
    cases prog with
    | none => simp [nextModel, hasSaveProgress]
    | some data =>
      by_cases hd : isAllDone data.tasks
      · rw [nextModel] at h
        simp [hd] at h
      · by_cases hact : (data.tasks.filter fun t => t.status == TaskStatus.active).isEmpty
        · cases hfn : findNextTask (cascadeSkip data.tasks) with
          | error cyc =>
            simp [nextModel, hd, hact, hfn, hasSaveProgress]
          | ok r =>
            rw [nextModel] at h
            cases r <;> simp [hd, hact, hfn] at h
        · rw [nextModel] at h
          simp [hd, hact] at h
  · intro h
    cases prog with
    | none => simp [nextBatchModel, hasSaveProgress]
    | some data =>
      by_cases hd : isAllDone data.tasks
      · rw [nextBatchModel] at h
        simp [hd] at h
      · by_cases hact : (data.tasks.filter fun t => t.status == TaskStatus.active).isEmpty
        · cases hfn : findParallelTasks (cascadeSkip data.tasks) with
          | error cyc =>
            simp [nextBatchModel, hd, hact, hfn, hasSaveProgress]
          | ok r =>
            rw [nextBatchModel] at h
            by_cases hr : r.isEmpty <;> simp [hd, hact, hfn, hr] at h
        · rw [nextBatchModel] at h
          simp [hd, hact] at h

/-- Witness for the amended C7 at the counterexample input. -/
theorem claim_C7_amended_cyclic_no_save_witness :
    (nextModel (some (wData [wTask "001" TaskStatus.pending ["002"],
        wTask "002" TaskStatus.pending ["001"], wTask "003" TaskStatus.pending ["004"],
        wTask "004" TaskStatus.failed []])) "" (fun _ => none)).1 =
      some (wData [wTask "001" TaskStatus.pending ["002"],
        wTask "002" TaskStatus.pending ["001"], wTask "003" TaskStatus.pending ["004"],
        wTask "004" TaskStatus.failed []]) ∧
    (nextModel (some (wData [wTask "001" TaskStatus.pending ["002"],
        wTask "002" TaskStatus.pending ["001"], wTask "003" TaskStatus.pending ["004"],
        wTask "004" TaskStatus.failed []])) "" (fun _ => none)).2.1 =
      [Effect.lockE, Effect.unlockE] ∧
    hasSaveProgress (nextModel (some (wData [wTask "001" TaskStatus.pending ["002"],
        wTask "002" TaskStatus.pending ["001"], wTask "003" TaskStatus.pending ["004"],
        wTask "004" TaskStatus.failed []])) "" (fun _ => none)).2.1 = false :=
  (claim_C7_amended_cyclic_no_save (some (wData [wTask "001" TaskStatus.pending ["002"],
      wTask "002" TaskStatus.pending ["001"], wTask "003" TaskStatus.pending ["004"],
      wTask "004" TaskStatus.failed []])) "" (fun _ => none) ["001", "002", "001"]).1
    rfl

/-! ### The cascade characterisation (claim C2) -/

theorem skipTask_id (t : TaskEntry) : (skipTask t).id = t.id := rfl

theorem idxGet_pos_congr : ∀ {ts us : List TaskEntry}, ts.length = us.length →
    (∀ j (hj : j < ts.length) (hj2 : j < us.length), ts[j].id = us[j].id) →
    ∀ d : String,
      (idxGet ts d = none ∧ idxGet us d = none) ∨
      (∃ j, ∃ hj : j < ts.length, ∃ hj2 : j < us.length,
        idxGet ts d = some ts[j] ∧ idxGet us d = some us[j]) := by
  intro ts
  induction ts with
  | nil =>
    intro us hlen _ d
    cases us with
    | nil => exact Or.inl ⟨rfl, rfl⟩
    | cons u us' => simp at hlen
  | cons t ts' ih =>
    intro us hlen hids d
    cases us with
    | nil => simp at hlen
    | cons u us' =>
      have hlen' : ts'.length = us'.length := by simpa using hlen
      have hids' : ∀ j (hj : j < ts'.length) (hj2 : j < us'.length), ts'[j].id = us'[j].id := by
        intro j hj hj2
        have := hids (j + 1) (by simpa using Nat.succ_lt_succ hj)
          (by simpa using Nat.succ_lt_succ hj2)
        simpa using this
      have hid0 : t.id = u.id := by
        have := hids 0 (by simp) (by simp)
        simpa using this
      rcases ih hlen' hids' d with ⟨hn1, hn2⟩ | ⟨j, hj, hj2, h1, h2⟩
      · by_cases hd : t.id = d
        · refine Or.inr ⟨0, by simp, by simp, ?_, ?_⟩
          · simp [idxGet, hn1, hd]
          · have hud : u.id = d := hid0 ▸ hd
            simp [idxGet, hn2, hud]
        · refine Or.inl ⟨?_, ?_⟩
          · simp [idxGet, hn1, hd]
          · have hud : ¬ u.id = d := by rw [← hid0]; exact hd
            simp [idxGet, hn2, hud]
      · refine Or.inr ⟨j + 1, by simpa using Nat.succ_lt_succ hj,
          by simpa using Nat.succ_lt_succ hj2, ?_, ?_⟩
        · simp [idxGet, h1]
        · simp [idxGet, h2]

theorem cascadeInv_pass {ts0 cur : List TaskEntry}
    (hlen : cur.length = ts0.length)
    (hinv : ∀ i (hi : i < ts0.length) (hi2 : i < cur.length),
      cur[i] = ts0[i] ∨ (Skippable ts0 ts0[i] ∧ cur[i] = skipTask ts0[i])) :
    (cascadePass cur).1.length = ts0.length ∧
    ∀ i (hi : i < ts0.length) (hi2 : i < (cascadePass cur).1.length),
      (cascadePass cur).1[i] = ts0[i] ∨
      (Skippable ts0 ts0[i] ∧ (cascadePass cur).1[i] = skipTask ts0[i]) := by
  have hfst : (cascadePass cur).1 =
      cur.map (fun t => if passCond cur t then skipTask t else t) := cascadePassGo_fst cur cur
  have hids : ∀ j (hj : j < ts0.length) (hj2 : j < cur.length), ts0[j].id = cur[j].id := by
    intro j hj hj2
    rcases hinv j hj hj2 with he | ⟨_, he⟩
    · rw [he]
    · rw [he, skipTask_id]
  constructor
  · rw [hfst]
    simpa using hlen
  · intro i hi hi2
    have hi3 : i < cur.length := by
      rw [hfst] at hi2
      simpa using hi2
    have hval : (cascadePass cur).1[i] =
        (if passCond cur cur[i] then skipTask cur[i] else cur[i]) := by
      have h0 := List.getElem_of_eq hfst hi2
      rw [h0, List.getElem_map]
    by_cases hc : passCond cur cur[i] = true
    · rw [if_pos hc] at hval
      have hcp := hc
      rw [passCond, Bool.and_eq_true] at hcp
      obtain ⟨hpend, hblk⟩ := hcp
      have hcure : cur[i] = ts0[i] := by
        rcases hinv i hi hi3 with he | ⟨_, he⟩
        · exact he
        · rw [he, skipTask_not_pending] at hpend
          cases hpend
      have hpend0 : ts0[i].status = TaskStatus.pending := by
        rw [hcure] at hpend
        simpa using hpend
      rw [depBlocked, List.any_eq_true] at hblk
      obtain ⟨d, hd, hmatch⟩ := hblk
      have hd0 : d ∈ ts0[i].deps := by
        rw [hcure] at hd
        exact hd
      cases hidx : idxGet cur d with
      | none => rw [hidx] at hmatch; cases hmatch
      | some dep =>
        rw [hidx] at hmatch
        rcases idxGet_pos_congr hlen.symm hids d with ⟨_, hn⟩ | ⟨j, hj, hj2, h1, h2⟩
        · rw [hidx] at hn
          cases hn
        · have hdep : dep = cur[j] := by
            rw [hidx] at h2
            exact Option.some.inj h2
          have hsk : Skippable ts0 ts0[i] := by
            rw [Bool.or_eq_true] at hmatch
            rcases hmatch with hbad | hbad
            · have hfail : dep.status = TaskStatus.failed := by simpa using hbad
              have hcj : cur[j] = ts0[j] := by
                rcases hinv j hj hj2 with he | ⟨_, he⟩
                · exact he
                · rw [he] at hdep
                  rw [hdep] at hfail
                  simp [skipTask, skipSummary] at hfail
              exact Skippable.direct hpend0 hd0 h1
                (Or.inl (by rw [← hcj, ← hdep]; exact hfail))
            · have hskp : dep.status = TaskStatus.skipped := by simpa using hbad
              rcases hinv j hj hj2 with he | ⟨hsj, he⟩
              · exact Skippable.direct hpend0 hd0 h1
                  (Or.inr (by rw [← he, ← hdep]; exact hskp))
              · exact Skippable.through hpend0 hd0 h1 hsj
          exact Or.inr ⟨hsk, by rw [hval, hcure]⟩
    · rw [if_neg hc] at hval
      rw [hval]
      exact hinv i hi hi3

theorem cascadeInv_loop : ∀ (fuel : Nat) {ts0 cur : List TaskEntry},
    cur.length = ts0.length →
    (∀ i (hi : i < ts0.length) (hi2 : i < cur.length),
      cur[i] = ts0[i] ∨ (Skippable ts0 ts0[i] ∧ cur[i] = skipTask ts0[i])) →
    (cascadeLoop fuel cur).length = ts0.length ∧
    ∀ i (hi : i < ts0.length) (hi2 : i < (cascadeLoop fuel cur).length),
      (cascadeLoop fuel cur)[i] = ts0[i] ∨
      (Skippable ts0 ts0[i] ∧ (cascadeLoop fuel cur)[i] = skipTask ts0[i]) := by
  intro fuel
  induction fuel with
  | zero => intro ts0 cur hlen hinv; exact ⟨hlen, hinv⟩
  | succ n ih =>
    intro ts0 cur hlen hinv
    obtain ⟨hlen', hinv'⟩ := cascadeInv_pass hlen hinv
    simp only [cascadeLoop]
    by_cases hc : (cascadePass cur).2 = true
    · simp only [hc, if_true]
      exact ih hlen' hinv'
    · have hc' : (cascadePass cur).2 = false := by
        cases hcc : (cascadePass cur).2
        · rfl
        · exact absurd hcc hc
      simp only [hc', Bool.false_eq_true, ite_false]
      exact ⟨hlen', hinv'⟩

theorem cascadeSkip_inv (ts0 : List TaskEntry) :
    (cascadeSkip ts0).length = ts0.length ∧
    ∀ i (hi : i < ts0.length) (hi2 : i < (cascadeSkip ts0).length),
      (cascadeSkip ts0)[i] = ts0[i] ∨
      (Skippable ts0 ts0[i] ∧ (cascadeSkip ts0)[i] = skipTask ts0[i]) := by
  unfold cascadeSkip
  rw [map_copyTask]
  exact cascadeInv_loop (ts0.length + 1) rfl (fun i hi hi2 => Or.inl rfl)

theorem cascadeSkip_skippable (ts0 : List TaskEntry) :
    ∀ {t : TaskEntry}, Skippable ts0 t →
      ∀ i (hi : i < ts0.length) (hi2 : i < (cascadeSkip ts0).length),
        ts0[i] = t → (cascadeSkip ts0)[i] = skipTask t := by
  have hlen := (cascadeSkip_inv ts0).1
  have hinv := (cascadeSkip_inv ts0).2
  have hids : ∀ j (hj : j < ts0.length) (hj2 : j < (cascadeSkip ts0).length),
      ts0[j].id = (cascadeSkip ts0)[j].id := by
    intro j hj hj2
    rcases hinv j hj hj2 with he | ⟨_, he⟩
    · rw [he]
    · rw [he, skipTask_id]
  have hfixall : ∀ t ∈ cascadeSkip ts0, passCond (cascadeSkip ts0) t = false := by
    have hfix := cascadeSkip_fix ts0
    rw [cascadePass, cascadePassGo_snd] at hfix
    intro t ht
    have := List.any_eq_false.mp hfix t ht
    simpa using this
  intro t hs
  induction hs with
  | @direct t' d dep hp hd hidx hbad =>
    intro i hi hi2 hits
    rcases hinv i hi hi2 with he | ⟨_, he⟩
    · exfalso
      rcases idxGet_pos_congr hlen.symm hids d with ⟨hn, _⟩ | ⟨j, hj, hj2, h1, h2⟩
      · rw [hidx] at hn
        cases hn
      · have hdep : dep = ts0[j] := by
          rw [hidx] at h1
          exact Option.some.inj h1
        have hbadR : ((cascadeSkip ts0)[j].status == TaskStatus.failed ||
            (cascadeSkip ts0)[j].status == TaskStatus.skipped) = true := by
          rcases hinv j hj hj2 with hej | ⟨_, hej⟩
          · rw [hej, ← hdep]
            rcases hbad with hb | hb <;> simp [hb]
          · rw [hej]
            simp [skipTask]
        have hpc : passCond (cascadeSkip ts0) ((cascadeSkip ts0)[i]) = true := by
          rw [passCond, Bool.and_eq_true]
          constructor
          · rw [he, hits]
            simpa using hp
          · rw [depBlocked, List.any_eq_true]
            refine ⟨d, ?_, ?_⟩
            · rw [he, hits]
              exact hd
            · rw [h2]
              exact hbadR
        have := hfixall ((cascadeSkip ts0)[i]) (List.getElem_mem _)
        rw [this] at hpc
        cases hpc
    · rw [he, hits]
  | @through t' d dep hp hd hidx hdep ih =>
    intro i hi hi2 hits
    rcases hinv i hi hi2 with he | ⟨_, he⟩
    · exfalso
      rcases idxGet_pos_congr hlen.symm hids d with ⟨hn, _⟩ | ⟨j, hj, hj2, h1, h2⟩
      · rw [hidx] at hn
        cases hn
      · have hdepj : ts0[j] = dep := by
          rw [hidx] at h1
          exact (Option.some.inj h1).symm
        have hRj : (cascadeSkip ts0)[j] = skipTask dep := ih j hj hj2 hdepj
        have hpc : passCond (cascadeSkip ts0) ((cascadeSkip ts0)[i]) = true := by
          rw [passCond, Bool.and_eq_true]
          constructor
          · rw [he, hits]
            simpa using hp
          · rw [depBlocked, List.any_eq_true]
            refine ⟨d, ?_, ?_⟩
            · rw [he, hits]
              exact hd
            · rw [h2, hRj]
              simp [skipTask]
        have := hfixall ((cascadeSkip ts0)[i]) (List.getElem_mem _)
        rw [this] at hpc
        cases hpc
    · rw [he, hits]

/-! ### Heap extension (allocation-only) lemmas -/

theorem heapExt_refl (h : Heap) : HeapExt h h :=
  ⟨Nat.le_refl _, fun _ _ => rfl⟩

theorem heapExt_trans {h1 h2 h3 : Heap} (a : HeapExt h1 h2) (b : HeapExt h2 h3) :
    HeapExt h1 h3 :=
  ⟨Nat.le_trans a.1 b.1, fun r hr => (b.2 r (Nat.lt_of_lt_of_le hr a.1)).trans (a.2 r hr)⟩

theorem alloc_ext (h : Heap) (c : Cell) : HeapExt h (h.alloc c).1 := by
  refine ⟨by simp [Heap.alloc], ?_⟩
  intro r hr
  simp only [Heap.alloc, Heap.read]
  exact List.getElem?_append_left hr

theorem read_alloc_self (h : Heap) (c : Cell) :
    (h.alloc c).1.read (h.alloc c).2 = some c := by
  simp only [Heap.alloc, Heap.read]
  exact List.getElem?_concat_length _ _

theorem read_some_lt {h : Heap} {r : Nat} {c : Cell} (hr : h.read r = some c) :
    r < h.cells.length := by
  by_contra hge
  push_neg at hge
  rw [Heap.read, List.getElem?_eq_none hge] at hr
  cases hr

theorem readTask_ext {h h' : Heap} (he : HeapExt h h') {r : Nat} {t : TaskEntry}
    (hr : readTask h r = some t) : readTask h' r = some t := by
  rw [readTask] at hr ⊢
  cases hc : h.read r with
  | none => rw [hc] at hr; cases hr
  | some cell =>
    rw [he.2 r (read_some_lt hc), hc]
    rw [hc] at hr
    exact hr

theorem readAgg_ext {h h' : Heap} (he : HeapExt h h') {r : Nat} {a : AggObj}
    (hr : readAgg h r = some a) : readAgg h' r = some a := by
  rw [readAgg] at hr ⊢
  cases hc : h.read r with
  | none => rw [hc] at hr; cases hr
  | some cell =>
    rw [he.2 r (read_some_lt hc), hc]
    rw [hc] at hr
    exact hr

theorem readTasks_ext {h h' : Heap} (he : HeapExt h h') :
    ∀ {rs : List Nat} {ts : List TaskEntry},
      readTasks h rs = some ts → readTasks h' rs = some ts := by
  intro rs
  induction rs with
  | nil =>
    intro ts hr
    rw [readTasks] at hr ⊢
    exact hr
  | cons r rest ih =>
    intro ts hr
    rw [readTasks] at hr ⊢
    cases hc : readTask h r with
    | none => rw [hc] at hr; cases hr
    | some t =>
      rw [hc] at hr
      cases hrest : readTasks h rest with
      | none => rw [hrest] at hr; cases hr
      | some us =>
        rw [hrest] at hr
        rw [readTask_ext he hc, ih hrest]
        exact hr

theorem readAggData_ext {h h' : Heap} (he : HeapExt h h') {r : Nat} {d : ProgressData}
    (hr : readAggData h r = some d) : readAggData h' r = some d := by
  rw [readAggData] at hr ⊢
  cases hc : readAgg h r with
  | none => rw [hc] at hr; cases hr
  | some a =>
    rw [hc] at hr
    dsimp only at hr
    rw [readAgg_ext he hc]
    dsimp only
    cases hts : readTasks h a.tasks with
    | none => rw [hts] at hr; cases hr
    | some ts =>
      rw [hts] at hr
      rw [readTasks_ext he hts]
      exact hr

theorem copyAllH_ext : ∀ (rs : List Nat) (h h2 : Heap) (rs2 : List Nat),
    copyAllH h rs = some (h2, rs2) → HeapExt h h2 := by
  intro rs
  induction rs with
  | nil =>
    intro h h2 rs2 hr
    simp only [copyAllH] at hr
    cases hr
    exact heapExt_refl h
  | cons r rest ih =>
    intro h h2 rs2 hr
    simp only [copyAllH] at hr
    cases hc : readTask h r with
    | none => rw [hc] at hr; cases hr
    | some t =>
      rw [hc] at hr
      dsimp only at hr
      cases hrec : copyAllH (h.alloc (Cell.task (copyTask t))).1 rest with
      | none => rw [hrec] at hr; cases hr
      | some p =>
        rw [hrec] at hr
        cases hr
        exact heapExt_trans (alloc_ext h _) (ih _ _ _ hrec)

theorem cascadeInnerH_ext (snap : List TaskEntry) :
    ∀ (rs : List Nat) (h h2 : Heap) (rs2 : List Nat) (c : Bool),
      cascadeInnerH snap h rs = some (h2, rs2, c) → HeapExt h h2 := by
  intro rs
  induction rs with
  | nil =>
    intro h h2 rs2 c hr
    simp only [cascadeInnerH] at hr
    cases hr
    exact heapExt_refl h
  | cons r rest ih =>
    intro h h2 rs2 c hr
    simp only [cascadeInnerH] at hr
    cases hc : readTask h r with
    | none => rw [hc] at hr; cases hr
    | some t =>
      rw [hc] at hr
      dsimp only at hr
      by_cases hcond : (t.status == TaskStatus.pending && depBlocked snap t) = true
      · rw [if_pos hcond] at hr
        cases hrec : cascadeInnerH snap (h.alloc (Cell.task (skipTask t))).1 rest with
        | none => rw [hrec] at hr; cases hr
        | some p =>
          obtain ⟨h3, rs3, c3⟩ := p
          rw [hrec] at hr
          cases hr
          exact heapExt_trans (alloc_ext h _) (ih _ _ _ _ hrec)
      · rw [if_neg hcond] at hr
        cases hrec : cascadeInnerH snap h rest with
        | none => rw [hrec] at hr; cases hr
        | some p =>
          obtain ⟨h3, rs3, c3⟩ := p
          rw [hrec] at hr
          cases hr
          exact ih _ _ _ _ hrec

theorem cascadeLoopH_ext : ∀ (fuel : Nat) (h h2 : Heap) (rs rs2 : List Nat),
    cascadeLoopH fuel h rs = some (h2, rs2) → HeapExt h h2 := by
  intro fuel
  induction fuel with
  | zero =>
    intro h h2 rs rs2 hr
    simp only [cascadeLoopH] at hr
    cases hr
    exact heapExt_refl h
  | succ n ih =>
    intro h h2 rs rs2 hr
    simp only [cascadeLoopH] at hr
    cases hs : readTasks h rs with
    | none => rw [hs] at hr; cases hr
    | some snap =>
      rw [hs] at hr
      dsimp only at hr
      cases hinner : cascadeInnerH snap h rs with
      | none => rw [hinner] at hr; cases hr
      | some p =>
        obtain ⟨h1, rs1, changed⟩ := p
        rw [hinner] at hr
        dsimp only at hr
        by_cases hch : changed = true
        · rw [if_pos hch] at hr
          exact heapExt_trans (cascadeInnerH_ext snap rs h h1 rs1 changed hinner)
            (ih _ _ _ _ hr)
        · rw [if_neg hch] at hr
          cases hr
          exact cascadeInnerH_ext snap rs h h2 rs2 changed hinner

theorem cascadeSkipH_ext (h : Heap) (rs : List Nat) (h2 : Heap) (rs2 : List Nat)
    (hr : cascadeSkipH h rs = some (h2, rs2)) : HeapExt h h2 := by
  simp only [cascadeSkipH] at hr
  cases hc : copyAllH h rs with
  | none => rw [hc] at hr; cases hr
  | some p =>
    obtain ⟨h1, rs1⟩ := p
    rw [hc] at hr
    dsimp only at hr
    exact heapExt_trans (copyAllH_ext rs h h1 rs1 hc) (cascadeLoopH_ext _ _ _ _ _ hr)

/-- Claim C2: `cascadeSkip` changes exactly the `pending` tasks whose
dependencies transitively reach a `failed`/`skipped` task (through tasks
skipped in the same fixpoint computation), turning each into `skipTask`
(status `skipped` with the fixed annotation); all other tasks — in
particular every `active`/`done`/`failed` one — come back unchanged; and
the heap form only allocates, leaving every pre-existing task object (and
the input reference list) untouched. -/
theorem claim_C2_cascadeSkip (ts : List TaskEntry) :
    (cascadeSkip ts).length = ts.length ∧
    (∀ i (hi : i < ts.length) (hi2 : i < (cascadeSkip ts).length),
      (Skippable ts ts[i] → (cascadeSkip ts)[i] = skipTask ts[i]) ∧
      (¬ Skippable ts ts[i] → (cascadeSkip ts)[i] = ts[i])) ∧
    (∀ (h : Heap) (rs : List Nat) (h2 : Heap) (rs2 : List Nat),
      cascadeSkipH h rs = some (h2, rs2) → HeapExt h h2) := by
  refine ⟨(cascadeSkip_inv ts).1, ?_, fun h rs h2 rs2 hr => cascadeSkipH_ext h rs h2 rs2 hr⟩
  intro i hi hi2
  constructor
  · intro hs
    exact cascadeSkip_skippable ts hs i hi hi2 rfl
  · intro hns
    rcases (cascadeSkip_inv ts).2 i hi hi2 with he | ⟨hsk, _⟩
    · exact he
    · exact absurd hsk hns

/-- Witness for C2: a pending task depending on a failed one is skipped,
and the heap run on the same two tasks only extends the heap. -/
theorem claim_C2_cascadeSkip_witness :
    (∃ hlen : 1 < (cascadeSkip [wTask "001" TaskStatus.failed [],
        wTask "002" TaskStatus.pending ["001"]]).length,
      (cascadeSkip [wTask "001" TaskStatus.failed [],
        wTask "002" TaskStatus.pending ["001"]]).get ⟨1, hlen⟩ =
        skipTask (wTask "002" TaskStatus.pending ["001"])) ∧
    (∃ p : Heap × List Nat,
      cascadeSkipH { cells := [Cell.task (wTask "001" TaskStatus.failed []),
        Cell.task (wTask "002" TaskStatus.pending ["001"])] } [0, 1] = some p ∧
      HeapExt { cells := [Cell.task (wTask "001" TaskStatus.failed []),
        Cell.task (wTask "002" TaskStatus.pending ["001"])] } p.1) := by
  constructor
  · refine ⟨by decide, ?_⟩
    rw [List.get_eq_getElem]
    exact ((claim_C2_cascadeSkip [wTask "001" TaskStatus.failed [],
        wTask "002" TaskStatus.pending ["001"]]).2.1 1 (by decide) (by decide)).1
      (@Skippable.direct [wTask "001" TaskStatus.failed [], wTask "002" TaskStatus.pending ["001"]]
        (wTask "002" TaskStatus.pending ["001"]) "001" (wTask "001" TaskStatus.failed [])
        rfl (by decide) (by decide) (Or.inl rfl))
  · cases hp : cascadeSkipH { cells := [Cell.task (wTask "001" TaskStatus.failed []),
        Cell.task (wTask "002" TaskStatus.pending ["001"])] } [0, 1] with
    | none => exact absurd hp (by decide)
    | some p =>
      exact ⟨p, rfl, (claim_C2_cascadeSkip [wTask "001" TaskStatus.failed [],
        wTask "002" TaskStatus.pending ["001"]]).2.2 _ [0, 1] p.1 p.2 (by rw [hp])⟩

/-! ### Heap refinement of the pure transitions (claim C6) -/

theorem readTask_alloc_self (h : Heap) (t : TaskEntry) :
    readTask (h.alloc (Cell.task t)).1 (h.alloc (Cell.task t)).2 = some t := by
  rw [readTask, read_alloc_self]

theorem readAgg_alloc_self (h : Heap) (a : AggObj) :
    readAgg (h.alloc (Cell.agg a)).1 (h.alloc (Cell.agg a)).2 = some a := by
  rw [readAgg, read_alloc_self]

theorem mapAllocTasks_spec (upd : TaskEntry → Option TaskEntry) :
    ∀ (rs : List Nat) (h : Heap) (ts : List TaskEntry),
      readTasks h rs = some ts →
      ∃ h2 rs2, mapAllocTasks upd h rs = some (h2, rs2) ∧ HeapExt h h2 ∧
        readTasks h2 rs2 = some (ts.map (fun t => (upd t).getD t)) := by
  intro rs
  induction rs with
  | nil =>
    intro h ts hr
    rw [readTasks] at hr
    cases hr
    exact ⟨h, [], rfl, heapExt_refl h, rfl⟩
  | cons r rest ih =>
    intro h ts hr
    rw [readTasks] at hr
    cases hc : readTask h r with
    | none => rw [hc] at hr; cases hr
    | some t =>
      rw [hc] at hr
      dsimp only at hr
      cases hrest : readTasks h rest with
      | none => rw [hrest] at hr; cases hr
      | some ts' =>
        rw [hrest] at hr
        cases hr
        cases hu : upd t with
        | some t' =>
          have hrest1 : readTasks (h.alloc (Cell.task t')).1 rest = some ts' :=
            readTasks_ext (alloc_ext h _) hrest
          obtain ⟨h2, rs2, heq, hext, hread⟩ := ih (h.alloc (Cell.task t')).1 ts' hrest1
          refine ⟨h2, (h.alloc (Cell.task t')).2 :: rs2, ?_, ?_, ?_⟩
          · simp only [mapAllocTasks, hc, hu, heq]
          · exact heapExt_trans (alloc_ext h _) hext
          · rw [readTasks, readTask_ext hext (readTask_alloc_self h t'), hread]
            simp [hu]
        | none =>
          obtain ⟨h2, rs2, heq, hext, hread⟩ := ih h ts' hrest
          refine ⟨h2, r :: rs2, ?_, ?_, ?_⟩
          · simp only [mapAllocTasks, hc, hu, heq]
          · exact hext
          · rw [readTasks, readTask_ext hext hc, hread]
            simp [hu]

theorem readAggData_decomp {h : Heap} {r : Nat} {data : ProgressData}
    (hag : readAggData h r = some data) :
    ∃ a, readAgg h r = some a ∧ readTasks h a.tasks = some data.tasks ∧
      a.name = data.name ∧ a.status = data.status ∧ a.current = data.current := by
  rw [readAggData] at hag
  cases ha : readAgg h r with
  | none => rw [ha] at hag; cases hag
  | some a =>
    rw [ha] at hag
    dsimp only at hag
    cases hts : readTasks h a.tasks with
    | none => rw [hts] at hag; cases hag
    | some ts =>
      rw [hts] at hag
      cases hag
      exact ⟨a, rfl, hts, rfl, rfl, rfl⟩

theorem completeTaskH_spec (h : Heap) (r : Nat) (i s : String) (data : ProgressData)
    (u : TaskEntry) (hag : readAggData h r = some data)
    (hu : idxGet data.tasks i = some u) :
    ∃ h2 r2, completeTaskH h r i s = some (h2, Except.ok r2) ∧ HeapExt h h2 ∧
      readAggData h2 r = some data ∧
      ∃ nd, completeTask data i s = Except.ok nd ∧ readAggData h2 r2 = some nd := by
  obtain ⟨a, ha, hts, hname, hstatus, hcurrent⟩ := readAggData_decomp hag
  obtain ⟨h1, rs1, heq, hext, hread⟩ := mapAllocTasks_spec
    (fun t => if t.id = i then some { t with status := TaskStatus.done, summary := s } else none)
    a.tasks h data.tasks hts
  have hmap : data.tasks.map (fun t =>
      ((fun t => if t.id = i then some { t with status := TaskStatus.done, summary := s } else none) t).getD t) =
      data.tasks.map (fun t =>
        if t.id = i then { t with status := TaskStatus.done, summary := s } else t) := by
    apply List.map_congr_left
    intro t _
    by_cases ht : t.id = i <;> simp [ht]
  rw [hmap] at hread
  set aggNew : AggObj := { name := a.name, status := a.status, current := none, tasks := rs1 }
  refine ⟨(h1.alloc (Cell.agg aggNew)).1, (h1.alloc (Cell.agg aggNew)).2, ?_, ?_, ?_, ?_⟩
  · simp only [completeTaskH, ha, hts, hu, heq]
  · exact heapExt_trans hext (alloc_ext h1 _)
  · exact readAggData_ext (heapExt_trans hext (alloc_ext h1 _)) hag
  · refine ⟨{ data with
      current := none,
      tasks := data.tasks.map (fun t =>
        if t.id = i then { t with status := TaskStatus.done, summary := s } else t) },
      completeTask_ok ⟨u, hu⟩ s, ?_⟩
    rw [readAggData, readAgg_alloc_self h1 aggNew]
    dsimp only
    rw [readTasks_ext (alloc_ext h1 _) hread]
    rw [hname, hstatus]

theorem failTaskH_spec (h : Heap) (r : Nat) (i : String) (data : ProgressData)
    (u : TaskEntry) (hag : readAggData h r = some data)
    (hu : idxGet data.tasks i = some u) :
    ∃ h2 r2 k nd, failTaskH h r i = some (h2, Except.ok (k, r2)) ∧ HeapExt h h2 ∧
      readAggData h2 r = some data ∧
      failTask data i = Except.ok (k, nd) ∧ readAggData h2 r2 = some nd := by
  obtain ⟨a, ha, hts, hname, hstatus, hcurrent⟩ := readAggData_decomp hag
  by_cases hc : u.retries + 1 ≥ 3
  · obtain ⟨h1, rs1, heq, hext, hread⟩ := mapAllocTasks_spec
      (fun t => if t.id = i then some { t with retries := u.retries + 1, status := TaskStatus.failed } else none)
      a.tasks h data.tasks hts
    have hmap : data.tasks.map (fun t =>
        ((fun t => if t.id = i then some { t with retries := u.retries + 1, status := TaskStatus.failed } else none) t).getD t) =
        data.tasks.map (failUpd i (u.retries + 1) TaskStatus.failed) := by
      apply List.map_congr_left
      intro t _
      by_cases ht : t.id = i <;> simp [ht, failUpd]
    rw [hmap] at hread
    set aggNew : AggObj := { name := a.name, status := a.status, current := none, tasks := rs1 }
    refine ⟨(h1.alloc (Cell.agg aggNew)).1, (h1.alloc (Cell.agg aggNew)).2, FailKind.skip,
      { data with current := none, tasks := data.tasks.map (failUpd i (u.retries + 1) TaskStatus.failed) },
      ?_, ?_, ?_, ?_, ?_⟩
    · simp only [failTaskH, ha, hts, hu, if_pos hc, heq]
    · exact heapExt_trans hext (alloc_ext h1 _)
    · exact readAggData_ext (heapExt_trans hext (alloc_ext h1 _)) hag
    · have := failTask_ok hu
      simp only [if_pos hc] at this
      exact this
    · rw [readAggData, readAgg_alloc_self h1 aggNew]
      dsimp only
      rw [readTasks_ext (alloc_ext h1 _) hread]
      rw [hname, hstatus]
  · obtain ⟨h1, rs1, heq, hext, hread⟩ := mapAllocTasks_spec
      (fun t => if t.id = i then some { t with retries := u.retries + 1, status := TaskStatus.pending } else none)
      a.tasks h data.tasks hts
    have hmap : data.tasks.map (fun t =>
        ((fun t => if t.id = i then some { t with retries := u.retries + 1, status := TaskStatus.pending } else none) t).getD t) =
        data.tasks.map (failUpd i (u.retries + 1) TaskStatus.pending) := by
      apply List.map_congr_left
      intro t _
      by_cases ht : t.id = i <;> simp [ht, failUpd]
    rw [hmap] at hread
    set aggNew : AggObj := { name := a.name, status := a.status, current := none, tasks := rs1 }
    refine ⟨(h1.alloc (Cell.agg aggNew)).1, (h1.alloc (Cell.agg aggNew)).2, FailKind.retry,
      { data with current := none, tasks := data.tasks.map (failUpd i (u.retries + 1) TaskStatus.pending) },
      ?_, ?_, ?_, ?_, ?_⟩
    · simp only [failTaskH, ha, hts, hu, if_neg hc, heq]
    · exact heapExt_trans hext (alloc_ext h1 _)
    · exact readAggData_ext (heapExt_trans hext (alloc_ext h1 _)) hag
    · have := failTask_ok hu
      simp only [if_neg hc] at this
      exact this
    · rw [readAggData, readAgg_alloc_self h1 aggNew]
      dsimp only
      rw [readTasks_ext (alloc_ext h1 _) hread]
      rw [hname, hstatus]

theorem resumeMapH_spec : ∀ (rs : List Nat) (h : Heap) (ts : List TaskEntry) (fid : Option String),
    readTasks h rs = some ts →
    ∃ h2 rs2, resumeMapH h rs fid = some (h2, rs2, (resumeMap ts fid).2) ∧ HeapExt h h2 ∧
      readTasks h2 rs2 = some (resumeMap ts fid).1 := by
  intro rs
  induction rs with
  | nil =>
    intro h ts fid hr
    rw [readTasks] at hr
    cases hr
    exact ⟨h, [], rfl, heapExt_refl h, rfl⟩
  | cons r rest ih =>
    intro h ts fid hr
    rw [readTasks] at hr
    cases hc : readTask h r with
    | none => rw [hc] at hr; cases hr
    | some t =>
      rw [hc] at hr
      dsimp only at hr
      cases hrest : readTasks h rest with
      | none => rw [hrest] at hr; cases hr
      | some ts' =>
        rw [hrest] at hr
        cases hr
        by_cases hact : (t.status == TaskStatus.active) = true
        · have hrest1 : readTasks (h.alloc (Cell.task { t with status := TaskStatus.pending })).1 rest = some ts' :=
            readTasks_ext (alloc_ext h _) hrest
          obtain ⟨h2, rs2, heq, hext, hread⟩ := ih
            (h.alloc (Cell.task { t with status := TaskStatus.pending })).1 ts'
            (if strOptFalsy fid then some t.id else fid) hrest1
          refine ⟨h2, (h.alloc (Cell.task { t with status := TaskStatus.pending })).2 :: rs2, ?_, ?_, ?_⟩
          · simp only [resumeMapH, hc, hact, if_true, heq, resumeMap]
          · exact heapExt_trans (alloc_ext h _) hext
          · rw [readTasks, readTask_ext hext (readTask_alloc_self h _), hread]
            simp only [resumeMap, hact, if_true]
        · have hact' : (t.status == TaskStatus.active) = false := by
            cases hb : (t.status == TaskStatus.active)
            · rfl
            · exact absurd hb hact
          obtain ⟨h2, rs2, heq, hext, hread⟩ := ih h ts' fid hrest
          refine ⟨h2, r :: rs2, ?_, ?_, ?_⟩
          · simp only [resumeMapH, hc, hact', Bool.false_eq_true, if_false, heq, resumeMap]
          · exact hext
          · rw [readTasks, readTask_ext hext hc, hread]
            simp only [resumeMap, hact', Bool.false_eq_true, if_false]

theorem resumeProgressH_spec (h : Heap) (r : Nat) (data : ProgressData)
    (hag : readAggData h r = some data) :
    ∃ h2 r2 fid, resumeProgressH h r = some (h2, r2, fid) ∧ HeapExt h h2 ∧
      readAggData h2 r = some data ∧
      ∃ nd, readAggData h2 r2 = some nd ∧ resumeProgress data = (nd, fid) := by
  obtain ⟨a, ha, hts, hname, hstatus, hcurrent⟩ := readAggData_decomp hag
  by_cases hany : (data.tasks.any (fun t => t.status == TaskStatus.active)) = true
  · obtain ⟨h1, rs1, heq, hext, hread⟩ := resumeMapH_spec a.tasks h data.tasks none hts
    set aggNew : AggObj :=
      { name := a.name, status := WorkflowStatus.running, current := none, tasks := rs1 }
    refine ⟨(h1.alloc (Cell.agg aggNew)).1, (h1.alloc (Cell.agg aggNew)).2,
      (resumeMap data.tasks none).2, ?_, ?_, ?_, ?_⟩
    · simp only [resumeProgressH, ha, hts, hany, if_true, heq]
    · exact heapExt_trans hext (alloc_ext h1 _)
    · exact readAggData_ext (heapExt_trans hext (alloc_ext h1 _)) hag
    · refine ⟨{ data with
        current := none,
        status := WorkflowStatus.running,
        tasks := (resumeMap data.tasks none).1 }, ?_, ?_⟩
      · rw [readAggData, readAgg_alloc_self h1 aggNew]
        dsimp only
        rw [readTasks_ext (alloc_ext h1 _) hread]
        rw [hname]
      · simp only [resumeProgress, hany, if_true]
  · have hany' : (data.tasks.any (fun t => t.status == TaskStatus.active)) = false := by
      cases hb : data.tasks.any (fun t => t.status == TaskStatus.active)
      · rfl
      · exact absurd hb hany
    refine ⟨h, r, (if data.status == WorkflowStatus.running then data.current else none),
      ?_, heapExt_refl h, hag, data, hag, ?_⟩
    · simp only [resumeProgressH, ha, hts, hany', Bool.false_eq_true, if_false, hname, hstatus,
        hcurrent]
    · simp only [resumeProgress, hany', Bool.false_eq_true, if_false]

/-- Claim C6: `completeTask`, `failTask` and `resumeProgress` never mutate
the aggregate they are given: in the heap model each only allocates, every
pre-existing cell (the original aggregate object and all its task objects)
reads back unchanged afterwards, and the aggregate reference they return
reads back exactly as the pure transition result. -/
theorem claim_C6_transitions_pure :
    (∀ (h : Heap) (r : Nat) (i s : String) (data : ProgressData) (u : TaskEntry),
      readAggData h r = some data → idxGet data.tasks i = some u →
      ∃ h2 r2, completeTaskH h r i s = some (h2, Except.ok r2) ∧ HeapExt h h2 ∧
        readAggData h2 r = some data ∧
        ∃ nd, completeTask data i s = Except.ok nd ∧ readAggData h2 r2 = some nd) ∧
    (∀ (h : Heap) (r : Nat) (i : String) (data : ProgressData) (u : TaskEntry),
      readAggData h r = some data → idxGet data.tasks i = some u →
      ∃ h2 r2 k nd, failTaskH h r i = some (h2, Except.ok (k, r2)) ∧ HeapExt h h2 ∧
        readAggData h2 r = some data ∧
        failTask data i = Except.ok (k, nd) ∧ readAggData h2 r2 = some nd) ∧
    (∀ (h : Heap) (r : Nat) (data : ProgressData),
      readAggData h r = some data →
      ∃ h2 r2 fid, resumeProgressH h r = some (h2, r2, fid) ∧ HeapExt h h2 ∧
        readAggData h2 r = some data ∧
        ∃ nd, readAggData h2 r2 = some nd ∧ resumeProgress data = (nd, fid)) :=
  ⟨completeTaskH_spec, failTaskH_spec, resumeProgressH_spec⟩

/-- Witness for C6 at a two-cell heap (one task object, one aggregate). -/
theorem claim_C6_transitions_pure_witness :
    (∃ h2 r2, completeTaskH wHeap 1 "001" "ok" = some (h2, Except.ok r2) ∧
      HeapExt wHeap h2 ∧ readAggData h2 1 = some wProg ∧
      ∃ nd, completeTask wProg "001" "ok" = Except.ok nd ∧ readAggData h2 r2 = some nd) ∧
    (∃ h2 r2 k nd, failTaskH wHeap 1 "001" = some (h2, Except.ok (k, r2)) ∧
      HeapExt wHeap h2 ∧ readAggData h2 1 = some wProg ∧
      failTask wProg "001" = Except.ok (k, nd) ∧ readAggData h2 r2 = some nd) ∧
    (∃ h2 r2 fid, resumeProgressH wHeap 1 = some (h2, r2, fid) ∧
      HeapExt wHeap h2 ∧ readAggData h2 1 = some wProg ∧
      ∃ nd, readAggData h2 r2 = some nd ∧ resumeProgress wProg = (nd, fid)) :=
  ⟨claim_C6_transitions_pure.1 wHeap 1 "001" "ok" wProg (wTask "001" TaskStatus.active [])
      (by decide) (by decide),
   claim_C6_transitions_pure.2.1 wHeap 1 "001" wProg (wTask "001" TaskStatus.active [])
      (by decide) (by decide),
   claim_C6_transitions_pure.2.2 wHeap 1 wProg (by decide)⟩

/-! ### DFS cycle detection: supporting lemmas (claim C1) -/

theorem pget_cons_self (p : List (String × String)) (k v : String) :
    pget ((k, v) :: p) k = some v := by
  rw [pget, List.find?_cons_of_pos _ (by simp)]
  rfl

theorem pget_cons_ne (p : List (String × String)) (k v x : String) (h : x ≠ k) :
    pget ((k, v) :: p) x = pget p x := by
  rw [pget, List.find?_cons_of_neg _ (by simpa using fun he => h he.symm), pget]

theorem chainLinks_congr (tasks : List TaskEntry) :
    ∀ (l : List String) (p1 p2 : List (String × String)),
      (∀ x ∈ l, pget p1 x = pget p2 x) → chainLinks tasks p2 l → chainLinks tasks p1 l := by
  intro l
  induction l with
  | nil => intro p1 p2 _ _; trivial
  | cons a rest ih =>
    intro p1 p2 hpg hcl
    cases rest with
    | nil => trivial
    | cons b rest' =>
      obtain ⟨h1, h2, h3⟩ := hcl
      refine ⟨?_, h2, ?_⟩
      · rw [hpg a (List.mem_cons_self a _), h1]
      · exact ih p1 p2 (fun x hx => hpg x (List.mem_cons_of_mem a hx)) h3

theorem chain_append_singleton {R : String → String → Prop} :
    ∀ {l : List String} {a x b : String},
      List.Chain R a l → (a :: l).getLast? = some x → R x b → List.Chain R a (l ++ [b]) := by
  intro l
  induction l with
  | nil =>
    intro a x b _ hlast hr
    have hax : a = x := by simpa using hlast
    exact List.Chain.cons (hax ▸ hr) List.Chain.nil
  | cons y ys ih =>
    intro a x b hch hlast hr
    rw [List.chain_cons] at hch
    refine List.Chain.cons hch.1 (ih hch.2 ?_ hr)
    simpa using hlast

theorem chain_transGen {R : String → String → Prop} :
    ∀ {l : List String} {a b : String}, l ≠ [] →
      List.Chain R a l → l.getLast? = some b → Relation.TransGen R a b := by
  intro l
  induction l with
  | nil => intro a b h; exact absurd rfl h
  | cons y ys ih =>
    intro a b _ hch hlast
    rw [List.chain_cons] at hch
    cases ys with
    | nil =>
      have hyb : y = b := by simpa using hlast
      exact Relation.TransGen.single (hyb ▸ hch.1)
    | cons z zs =>
      exact Relation.TransGen.head hch.1
        (ih (by simp) hch.2 (by simpa using hlast))

theorem filterLenLe (l : List String) (p q : String → Bool)
    (h : ∀ x, q x = true → p x = true) :
    (l.filter q).length ≤ (l.filter p).length := by
  induction l with
  | nil => simp
  | cons a rest ih =>
    simp only [List.filter_cons]
    by_cases hq : q a = true
    · rw [if_pos hq, if_pos (h a hq)]
      simpa using ih
    · rw [if_neg hq]
      by_cases hp : p a = true
      · rw [if_pos hp]
        simp only [List.length_cons]
        omega
      · rw [if_neg hp]
        exact ih

theorem filterLenLt (l : List String) (p q : String → Bool)
    (h : ∀ x, q x = true → p x = true) {a : String}
    (ha : a ∈ l) (hpa : p a = true) (hqa : q a = false) :
    (l.filter q).length < (l.filter p).length := by
  induction l with
  | nil => cases ha
  | cons c rest ih =>
    simp only [List.filter_cons]
    rcases List.mem_cons.mp ha with rfl | ha'
    · rw [if_pos hpa, if_neg (by simp [hqa])]
      simp only [List.length_cons]
      have := filterLenLe rest p q h
      omega
    · by_cases hq : q c = true
      · rw [if_pos hq, if_pos (h c hq)]
        simpa using ih ha'
      · rw [if_neg hq]
        by_cases hp : p c = true
        · rw [if_pos hp]
          simp only [List.length_cons]
          have h2 := ih ha'
          omega
        · rw [if_neg hp]
          exact ih ha'

theorem unvis_le_allIds (tasks : List TaskEntry) (vis : List String) :
    unvis tasks vis ≤ (allIds tasks).length :=
  Nat.le_trans (List.length_filter_le _ _) (List.Sublist.length_le (List.dedup_sublist _))

theorem unvis_mono (tasks : List TaskEntry) {vis vis' : List String}
    (h : ∀ x ∈ vis, x ∈ vis') : unvis tasks vis' ≤ unvis tasks vis := by
  apply filterLenLe
  intro x hx
  simp only [decide_eq_true_eq] at hx ⊢
  intro hmem
  exact hx (h x hmem)

theorem unvis_insert_lt (tasks : List TaskEntry) {vis : List String} {a : String}
    (hmem : a ∈ allIds tasks) (hnv : a ∉ vis) :
    unvis tasks (a :: vis) < unvis tasks vis := by
  apply filterLenLt _ _ _ ?_ (List.mem_dedup.mpr hmem) ?_ ?_
  · intro x hx
    simp only [decide_eq_true_eq, List.mem_cons] at hx ⊢
    intro hmem2
    exact hx (Or.inr hmem2)
  · simpa using hnv
  · simp

theorem id_mem_allIds {tasks : List TaskEntry} {t : TaskEntry} (h : t ∈ tasks) :
    t.id ∈ allIds tasks :=
  List.mem_append_left _ (List.mem_map_of_mem _ h)

theorem dep_mem_allIds {tasks : List TaskEntry} {t : TaskEntry} {d : String}
    (ht : t ∈ tasks) (hd : d ∈ t.deps) : d ∈ allIds tasks :=
  List.mem_append_right _ (List.mem_flatten.mpr ⟨t.deps, List.mem_map_of_mem _ ht, hd⟩)

theorem edge_deps {tasks : List TaskEntry} {v d : String} {task : TaskEntry}
    (hidx : idxGet tasks v = some task) (he : Edge tasks v d) : d ∈ task.deps := by
  obtain ⟨t', ht', hd⟩ := he
  rw [hidx] at ht'
  cases ht'
  exact hd

theorem no_edge_of_idxGet_none {tasks : List TaskEntry} {v : String}
    (h : idxGet tasks v = none) (d : String) : ¬ Edge tasks v d := by
  rintro ⟨t', ht', _⟩
  rw [h] at ht'
  cases ht'

theorem safe_of_edges_safe {tasks : List TaskEntry} {v : String}
    (h : ∀ d, Edge tasks v d → Safe tasks d) : Safe tasks v := by
  intro w hreach hww
  rcases Relation.ReflTransGen.cases_head hreach with heq | ⟨d, hvd, hdw⟩
  · subst heq
    obtain ⟨d, hvd, hdv⟩ := (Relation.TransGen.head'_iff).mp hww
    exact h d hvd v hdv hww
  · exact h d hvd w hdw hww

theorem chainToRoot_spec (tasks : List TaskEntry) :
    ∀ (stack : List String) (parent : List (String × String)) (dep v : String) (fuel : Nat),
      chainLinks tasks parent (v :: stack) →
      dep ∈ v :: stack →
      stack.length + 1 ≤ fuel →
      List.Chain (Edge tasks) dep ((chainToRoot parent fuel dep v).reverse) ∧
      (dep :: (chainToRoot parent fuel dep v).reverse).getLast? = some v := by
  intro stack
  induction stack with
  | nil =>
    intro parent dep v fuel _ hmem hfuel
    have hdv : dep = v := by simpa using hmem
    cases fuel with
    | zero => omega
    | succ f =>
      rw [chainToRoot, if_pos hdv.symm]
      subst hdv
      exact ⟨List.Chain.nil, by simp⟩
  | cons v1 rest ih =>
    intro parent dep v fuel hchain hmem hfuel
    cases fuel with
    | zero => omega
    | succ f =>
      by_cases hvd : v = dep
      · rw [chainToRoot, if_pos hvd]
        subst hvd
        exact ⟨List.Chain.nil, by simp⟩
      · obtain ⟨hpv, hedge, hchain'⟩ := hchain
        rw [chainToRoot, if_neg hvd, hpv]
        simp only [Option.getD_some]
        have hmem' : dep ∈ v1 :: rest := by
          rcases List.mem_cons.mp hmem with heq | h'
          · exact absurd heq.symm hvd
          · exact h'
        obtain ⟨hch, hlast⟩ := ih parent dep v1 f hchain' hmem' (by simp at hfuel; omega)
        constructor
        · rw [List.reverse_cons]
          exact chain_append_singleton hch hlast hedge
        · rw [List.reverse_cons, ← List.cons_append, List.getLast?_concat]

theorem dfs_spec (tasks : List TaskEntry) :
    ∀ n : Nat, ∀ v : String, ∀ st : DfsSt,
      v ∉ st.visited → v ∈ allIds tasks →
      (∀ x ∈ st.inStack, x ∈ st.visited) →
      chainLinks tasks st.parent (v :: st.inStack) →
      safeDone tasks st →
      unvis tasks st.visited + 1 ≤ n →
      (∀ c st2, dfsVisit tasks n v st = (st2, some c) → IsCycleIn tasks c) ∧
      (∀ st2, dfsVisit tasks n v st = (st2, none) →
        st2.inStack = st.inStack ∧
        (∀ x ∈ st.visited, x ∈ st2.visited) ∧ v ∈ st2.visited ∧
        (∀ k ∈ st.visited, pget st2.parent k = pget st.parent k) ∧
        safeDone tasks st2) := by
  intro n
  induction n with
  | zero =>
    intro v st _ _ _ _ _ hfuel
    exact absurd hfuel (by omega)
  | succ n ih =>
    intro v st hvu hvm hsub hchain hsafe hfuel
    have haux : ∀ (deps : List String) (v0 : String) (st0 : DfsSt) (rest0 : List String),
        st0.inStack = v0 :: rest0 →
        (∀ x ∈ st0.inStack, x ∈ st0.visited) →
        chainLinks tasks st0.parent st0.inStack →
        safeDone tasks st0 →
        (∀ d ∈ deps, Edge tasks v0 d) →
        (∀ d ∈ deps, d ∈ allIds tasks) →
        unvis tasks st0.visited + 1 ≤ n →
        (∀ c st2, dfsDepsAux (dfsVisit tasks n) v0 deps st0 = (st2, some c) →
          IsCycleIn tasks c) ∧
        (∀ st2, dfsDepsAux (dfsVisit tasks n) v0 deps st0 = (st2, none) →
          st2.inStack = st0.inStack ∧
          (∀ x ∈ st0.visited, x ∈ st2.visited) ∧
          (∀ k ∈ st0.visited, pget st2.parent k = pget st0.parent k) ∧
          safeDone tasks st2 ∧
          (∀ d ∈ deps, Safe tasks d)) := by
      intro deps
      induction deps with
      | nil =>
        intro v0 st0 rest0 hst hsub0 hchain0 hsafe0 hedges hmemd hfuel0
        constructor
        · intro c st2 h
          simp only [dfsDepsAux, Prod.mk.injEq] at h
          exact Option.noConfusion h.2
        · intro st2 h
          simp only [dfsDepsAux, Prod.mk.injEq] at h
          obtain ⟨h1, -⟩ := h
          subst h1
          exact ⟨rfl, fun x hx => hx, fun k _ => rfl, hsafe0,
            fun d hd => absurd hd (List.not_mem_nil d)⟩
      | cons d rest ihd =>
        intro v0 st0 rest0 hst hsub0 hchain0 hsafe0 hedges hmemd hfuel0
        by_cases hdv : d ∈ st0.visited
        · by_cases hds : d ∈ st0.inStack
          · constructor
            · intro c st2 h
              simp only [dfsDepsAux, if_pos hdv, if_pos hds, Prod.mk.injEq,
                Option.some.injEq] at h
              obtain ⟨-, h2⟩ := h
              subst h2
              have hlen : st0.inStack.length = rest0.length + 1 := by
                rw [hst]
                rfl
              have hchain1 : chainLinks tasks st0.parent (v0 :: rest0) := by
                rw [← hst]
                exact hchain0
              have hd1 : d ∈ v0 :: rest0 := by
                rw [← hst]
                exact hds
              obtain ⟨hch, hlast⟩ := chainToRoot_spec tasks rest0 st0.parent d v0
                st0.inStack.length hchain1 hd1 (le_of_eq hlen.symm)
              refine ⟨d, (chainToRoot st0.parent st0.inStack.length d v0).reverse ++ [d],
                rfl, by simp, ?_, ?_⟩
              · exact chain_append_singleton hch hlast (hedges d (List.mem_cons_self d rest))
              · rw [List.getLast?_concat]
            · intro st2 h
              simp only [dfsDepsAux, if_pos hdv, if_pos hds, Prod.mk.injEq] at h
              exact Option.noConfusion h.2
          · have hrest := ihd v0 st0 rest0 hst hsub0 hchain0 hsafe0
              (fun x hx => hedges x (List.mem_cons_of_mem d hx))
              (fun x hx => hmemd x (List.mem_cons_of_mem d hx)) hfuel0
            constructor
            · intro c st2 h
              simp only [dfsDepsAux, if_pos hdv, if_neg hds] at h
              exact hrest.1 c st2 h
            · intro st2 h
              simp only [dfsDepsAux, if_pos hdv, if_neg hds] at h
              obtain ⟨he1, he2, he3, he4, he5⟩ := hrest.2 st2 h
              refine ⟨he1, he2, he3, he4, ?_⟩
              intro x hx
              rcases List.mem_cons.mp hx with rfl | hx'
              · refine he4 x (he2 x hdv) ?_
                rw [he1]
                exact hds
              · exact he5 x hx'
        · have hdns : d ∉ st0.inStack := fun hin => hdv (hsub0 d hin)
          have hchain1 : chainLinks tasks st0.parent (v0 :: rest0) := by
            rw [← hst]
            exact hchain0
          have hpp : ∀ x ∈ st0.visited, pget ((d, v0) :: st0.parent) x = pget st0.parent x :=
            fun x hx => pget_cons_ne st0.parent d v0 x (fun he => hdv (he ▸ hx))
          have hchain2 : chainLinks tasks ((d, v0) :: st0.parent) (d :: st0.inStack) := by
            rw [hst]
            refine ⟨pget_cons_self st0.parent d v0, hedges d (List.mem_cons_self d rest), ?_⟩
            refine chainLinks_congr tasks (v0 :: rest0) _ st0.parent ?_ hchain1
            intro x hx
            refine hpp x (hsub0 x ?_)
            rw [hst]
            exact hx
          have hih := ih d { st0 with parent := (d, v0) :: st0.parent } hdv
            (hmemd d (List.mem_cons_self d rest)) hsub0 hchain2 hsafe0 hfuel0
          constructor
          · intro c st2 h
            simp only [dfsDepsAux, if_neg hdv] at h
            cases hrec : dfsVisit tasks n d { st0 with parent := (d, v0) :: st0.parent } with
            | mk st3 oc =>
              rw [hrec] at h
              cases oc with
              | some c0 =>
                simp only [Prod.mk.injEq, Option.some.injEq] at h
                obtain ⟨-, h2⟩ := h
                subst h2
                exact hih.1 c0 st3 hrec
              | none =>
                obtain ⟨he1, he2, he3, he4, he5⟩ := hih.2 st3 hrec
                dsimp only at he1 he2 he4
                have hst3 : st3.inStack = v0 :: rest0 := he1.trans hst
                have hpg3 : ∀ k ∈ st0.visited, pget st3.parent k = pget st0.parent k :=
                  fun k hk => (he4 k hk).trans (hpp k hk)
                have hrest := ihd v0 st3 rest0 hst3
                  (fun x hx => he2 x (hsub0 x (he1 ▸ hx)))
                  (by
                    rw [hst3]
                    refine chainLinks_congr tasks (v0 :: rest0) st3.parent st0.parent ?_ hchain1
                    intro x hx
                    refine hpg3 x (hsub0 x ?_)
                    rw [hst]
                    exact hx)
                  he5
                  (fun x hx => hedges x (List.mem_cons_of_mem d hx))
                  (fun x hx => hmemd x (List.mem_cons_of_mem d hx))
                  (by
                    have h9 := unvis_mono tasks he2
                    omega)
                exact hrest.1 c st2 h
          · intro st2 h
            simp only [dfsDepsAux, if_neg hdv] at h
            cases hrec : dfsVisit tasks n d { st0 with parent := (d, v0) :: st0.parent } with
            | mk st3 oc =>
              rw [hrec] at h
              cases oc with
              | some c0 =>
                simp only [Prod.mk.injEq] at h
                exact Option.noConfusion h.2
              | none =>
                obtain ⟨he1, he2, he3, he4, he5⟩ := hih.2 st3 hrec
                dsimp only at he1 he2 he4
                have hst3 : st3.inStack = v0 :: rest0 := he1.trans hst
                have hpg3 : ∀ k ∈ st0.visited, pget st3.parent k = pget st0.parent k :=
                  fun k hk => (he4 k hk).trans (hpp k hk)
                have hrest := ihd v0 st3 rest0 hst3
                  (fun x hx => he2 x (hsub0 x (he1 ▸ hx)))
                  (by
                    rw [hst3]
                    refine chainLinks_congr tasks (v0 :: rest0) st3.parent st0.parent ?_ hchain1
                    intro x hx
                    refine hpg3 x (hsub0 x ?_)
                    rw [hst]
                    exact hx)
                  he5
                  (fun x hx => hedges x (List.mem_cons_of_mem d hx))
                  (fun x hx => hmemd x (List.mem_cons_of_mem d hx))
                  (by
                    have h9 := unvis_mono tasks he2
                    omega)
                obtain ⟨hf1, hf2, hf3, hf4, hf5⟩ := hrest.2 st2 h
                refine ⟨hf1.trans he1, fun x hx => hf2 x (he2 x hx),
                  fun k hk => ((hf3 k (he2 k hk)).trans (he4 k hk)).trans (hpp k hk),
                  hf4, ?_⟩
                intro x hx
                rcases List.mem_cons.mp hx with rfl | hx'
                · refine hf4 x (hf2 x he3) ?_
                  rw [hf1, he1]
                  exact hdns
                · exact hf5 x hx'
    cases hidx : idxGet tasks v with
    | none =>
      have hsafev : Safe tasks v :=
        safe_of_edges_safe (fun d hd => absurd hd (no_edge_of_idxGet_none hidx d))
      constructor
      · intro c st2 h
        simp only [dfsVisit, hidx, Prod.mk.injEq] at h
        exact Option.noConfusion h.2
      · intro st2 h
        simp only [dfsVisit, hidx, Prod.mk.injEq] at h
        obtain ⟨h1, -⟩ := h
        subst h1
        refine ⟨?_, ?_, ?_, ?_, ?_⟩
        · show (v :: st.inStack).erase v = st.inStack
          exact List.erase_cons_head v st.inStack
        · exact fun x hx => List.mem_cons_of_mem v hx
        · exact List.mem_cons_self v st.visited
        · exact fun k _ => rfl
        · intro x hx hxs
          dsimp only at hx hxs
          rw [List.erase_cons_head] at hxs
          rcases List.mem_cons.mp hx with rfl | hx2
          · exact hsafev
          · exact hsafe x hx2 hxs
    | some task =>
      have hsub1 : ∀ x ∈ v :: st.inStack, x ∈ v :: st.visited := by
        intro x hx
        rcases List.mem_cons.mp hx with rfl | hx'
        · exact List.mem_cons_self x _
        · exact List.mem_cons_of_mem v (hsub x hx')
      have hsafe1 : ∀ x ∈ v :: st.visited, x ∉ v :: st.inStack → Safe tasks x := by
        intro x hx hxs
        rcases List.mem_cons.mp hx with rfl | hx'
        · exact absurd (List.mem_cons_self x st.inStack) hxs
        · exact hsafe x hx' (fun hm => hxs (List.mem_cons_of_mem v hm))
      have hfuel1 : unvis tasks (v :: st.visited) + 1 ≤ n := by
        have := unvis_insert_lt tasks hvm hvu
        omega
      have ha := haux task.deps v
        { st with visited := v :: st.visited, inStack := v :: st.inStack } st.inStack
        rfl hsub1 hchain hsafe1
        (fun d hd => ⟨task, hidx, hd⟩)
        (fun d hd => dep_mem_allIds (idxGet_mem hidx).1 hd)
        hfuel1
      cases hda : dfsDepsAux (dfsVisit tasks n) v task.deps
          { st with visited := v :: st.visited, inStack := v :: st.inStack } with
      | mk st3 oc =>
        cases oc with
        | some c0 =>
          constructor
          · intro c st2 h
            simp only [dfsVisit, hidx, hda, Prod.mk.injEq, Option.some.injEq] at h
            obtain ⟨-, h2⟩ := h
            subst h2
            exact ha.1 c0 st3 hda
          · intro st2 h
            simp only [dfsVisit, hidx, hda, Prod.mk.injEq] at h
            exact Option.noConfusion h.2
        | none =>
          obtain ⟨hb1, hb2, hb3, hb4, hb5⟩ := ha.2 st3 hda
          dsimp only at hb1 hb2 hb3
          constructor
          · intro c st2 h
            simp only [dfsVisit, hidx, hda, Prod.mk.injEq] at h
            exact Option.noConfusion h.2
          · intro st2 h
            simp only [dfsVisit, hidx, hda, Prod.mk.injEq] at h
            obtain ⟨h1, -⟩ := h
            subst h1
            have hsafev : Safe tasks v :=
              safe_of_edges_safe (fun dd hdd => hb5 dd (edge_deps hidx hdd))
            refine ⟨?_, ?_, ?_, ?_, ?_⟩
            · show st3.inStack.erase v = st.inStack
              rw [hb1]
              exact List.erase_cons_head v st.inStack
            · exact fun x hx => hb2 x (List.mem_cons_of_mem v hx)
            · exact hb2 v (List.mem_cons_self v st.visited)
            · exact fun k hk => hb3 k (List.mem_cons_of_mem v hk)
            · intro x hx hxs
              dsimp only at hx hxs
              rw [hb1, List.erase_cons_head] at hxs
              by_cases hxv : x = v
              · subst hxv
                exact hsafev
              · refine hb4 x hx ?_
                rw [hb1]
                intro hm
                rcases List.mem_cons.mp hm with heq | hm2
                · exact hxv heq
                · exact hxs hm2


theorem detectLoop_spec (tasks : List TaskEntry) :
    ∀ (rem : List TaskEntry) (st : DfsSt), (∀ t ∈ rem, t ∈ tasks) →
      st.inStack = [] →
      (∀ x ∈ st.visited, Safe tasks x) →
      (∀ c, detectLoop tasks rem st = some c → IsCycleIn tasks c) ∧
      (detectLoop tasks rem st = none → ∀ t ∈ rem, Safe tasks t.id) := by
  intro rem
  induction rem with
  | nil =>
    intro st _ _ _
    constructor
    · intro c h
      simp only [detectLoop] at h
      exact Option.noConfusion h
    · intro _ t ht
      exact absurd ht (List.not_mem_nil t)
  | cons t rest ih =>
    intro st hmem hstk hsafe
    by_cases hv : t.id ∈ st.visited
    · have hr := ih st (fun u hu => hmem u (List.mem_cons_of_mem t hu)) hstk hsafe
      constructor
      · intro c h
        simp only [detectLoop, if_pos hv] at h
        exact hr.1 c h
      · intro h u hu
        simp only [detectLoop, if_pos hv] at h
        rcases List.mem_cons.mp hu with rfl | hu2
        · exact hsafe u.id hv
        · exact hr.2 h u hu2
    · have hds := dfs_spec tasks (dfsFuel tasks) t.id st hv
        (id_mem_allIds (hmem t (List.mem_cons_self t rest)))
        (fun x hx => absurd (hstk ▸ hx) (List.not_mem_nil x))
        (by
          rw [hstk]
          trivial)
        (fun x hx _ => hsafe x hx)
        (by
          have h9 := unvis_le_allIds tasks st.visited
          show unvis tasks st.visited + 1 ≤ (allIds tasks).length + 1
          omega)
      cases hrec : dfsVisit tasks (dfsFuel tasks) t.id st with
      | mk st2 oc =>
        cases oc with
        | some c0 =>
          constructor
          · intro c h
            simp only [detectLoop, if_neg hv, hrec] at h
            cases h
            exact hds.1 c0 st2 hrec
          · intro h
            simp only [detectLoop, if_neg hv, hrec] at h
            exact Option.noConfusion h
        | none =>
          obtain ⟨hb1, hb2, hb3, hb4, hb5⟩ := hds.2 st2 hrec
          have hstk2 : st2.inStack = [] := hb1.trans hstk
          have hsafe2 : ∀ x ∈ st2.visited, Safe tasks x := by
            intro x hx
            refine hb5 x hx ?_
            rw [hstk2]
            exact List.not_mem_nil x
          have hr := ih st2 (fun u hu => hmem u (List.mem_cons_of_mem t hu)) hstk2 hsafe2
          constructor
          · intro c h
            simp only [detectLoop, if_neg hv, hrec] at h
            exact hr.1 c h
          · intro h u hu
            simp only [detectLoop, if_neg hv, hrec] at h
            rcases List.mem_cons.mp hu with rfl | hu2
            · exact hsafe2 u.id hb3
            · exact hr.2 h u hu2

theorem detectCycles_sound {tasks : List TaskEntry} {c : List String}
    (h : detectCycles tasks = some c) : IsCycleIn tasks c :=
  (detectLoop_spec tasks tasks { visited := [], inStack := [], parent := [] }
    (fun _ ht => ht) rfl (fun x hx => absurd hx (List.not_mem_nil x))).1 c h

theorem detectCycles_complete {tasks : List TaskEntry}
    (h : detectCycles tasks = none) : ∀ t ∈ tasks, Safe tasks t.id :=
  (detectLoop_spec tasks tasks { visited := [], inStack := [], parent := [] }
    (fun _ ht => ht) rfl (fun x hx => absurd hx (List.not_mem_nil x))).2 h

theorem hasCycle_of_isCycleIn {tasks : List TaskEntry} {c : List String}
    (h : IsCycleIn tasks c) : HasCycle tasks := by
  obtain ⟨a, l, -, hne, hch, hlast⟩ := h
  exact ⟨a, chain_transGen hne hch hlast⟩

theorem not_hasCycle_of_all_safe {tasks : List TaskEntry}
    (h : ∀ t ∈ tasks, Safe tasks t.id) : ¬ HasCycle tasks := by
  rintro ⟨a, ha⟩
  obtain ⟨d, had, -⟩ := (Relation.TransGen.head'_iff).mp ha
  obtain ⟨t, hidx, -⟩ := had
  obtain ⟨htm, hid⟩ := idxGet_mem hidx
  have hsafe := h t htm
  rw [hid] at hsafe
  exact hsafe a Relation.ReflTransGen.refl ha

theorem elig_iff (all : List TaskEntry) (t : TaskEntry) :
    eligCond all t = true ↔ EligibleSpec all t := by
  simp only [eligCond, EligibleSpec, Bool.and_eq_true, beq_iff_eq, List.all_eq_true]
  apply and_congr Iff.rfl
  constructor
  · intro h d hd
    have h2 := h d hd
    cases hx : idxGet all d with
    | none =>
      rw [hx] at h2
      simp at h2
    | some u =>
      rw [hx] at h2
      simp only [Option.map_some, Option.map, beq_iff_eq, Option.some.injEq] at h2
      exact ⟨u, rfl, h2⟩
  · intro h d hd
    obtain ⟨u, hu, hs⟩ := h d hd
    rw [hu]
    simp [hs]

theorem findNextLoop_eq_find (all : List TaskEntry) :
    ∀ l : List TaskEntry, findNextLoop all l = l.find? (eligCond all) := by
  intro l
  induction l with
  | nil => rfl
  | cons t rest ih =>
    by_cases h : eligCond all t = true
    · simp only [findNextLoop, if_pos h, List.find?_cons_of_pos _ h]
    · simp only [findNextLoop, if_neg h, List.find?_cons_of_neg _ h, ih]

/-- **C1.** When the `pending` tasks of the sequence contain no dependency
cycle, `findNextTask` returns (without error) the first task in stored
order that is `pending` with every dependency id resolving to a `done`
task (absent ids count as not done), and returns `null` exactly when no
such task exists; when the `pending` tasks do contain a cycle, it raises
the cyclic-dependency error carrying an actual dependency cycle of the
`pending` subsequence. -/
theorem pendingOf_def (tasks : List TaskEntry) :
    List.filter (fun t => t.status == TaskStatus.pending) tasks = pendingOf tasks := rfl

theorem claim_C1_findNextTask (tasks : List TaskEntry) :
    (¬ HasCycle (pendingOf tasks) →
      (∀ t, findNextTask tasks = Except.ok (some t) →
        ∃ i, ∃ hi : i < tasks.length, tasks[i] = t ∧ EligibleSpec tasks t ∧
          ∀ j, ∀ hj : j < tasks.length, j < i → ¬ EligibleSpec tasks (tasks[j])) ∧
      (findNextTask tasks = Except.ok none → ∀ t ∈ tasks, ¬ EligibleSpec tasks t) ∧
      (∃ r, findNextTask tasks = Except.ok r)) ∧
    (HasCycle (pendingOf tasks) →
      ∃ c, findNextTask tasks = Except.error c ∧ IsCycleIn (pendingOf tasks) c) := by
  cases hdc : detectCycles (pendingOf tasks) with
  | some c =>
    have hcyc : IsCycleIn (pendingOf tasks) c := detectCycles_sound hdc
    have hok : findNextTask tasks = Except.error c := by
      simp only [findNextTask, pendingOf_def, hdc]
    constructor
    · intro hns
      exact absurd (hasCycle_of_isCycleIn hcyc) hns
    · intro _
      exact ⟨c, hok, hcyc⟩
  | none =>
    have hns : ¬ HasCycle (pendingOf tasks) :=
      not_hasCycle_of_all_safe (detectCycles_complete hdc)
    have hok : findNextTask tasks = Except.ok (findNextLoop tasks tasks) := by
      simp only [findNextTask, pendingOf_def, hdc]
    constructor
    · intro _
      refine ⟨?_, ?_, findNextLoop tasks tasks, hok⟩
      · intro t ht
        rw [hok] at ht
        injection ht with ht2
        have hf : tasks.find? (eligCond tasks) = some t := by
          rw [← findNextLoop_eq_find]
          exact ht2
        obtain ⟨j, hj, hjt, hpt, hbefore⟩ := find?_first hf
        refine ⟨j, hj, hjt, (elig_iff tasks t).mp hpt, ?_⟩
        intro k hk hkj he
        have h2 := (elig_iff tasks (tasks[k])).mpr he
        rw [hbefore k hk hkj] at h2
        exact Bool.noConfusion h2
      · intro hnone t ht he
        rw [hok] at hnone
        injection hnone with hn2
        have hf : tasks.find? (eligCond tasks) = none := by
          rw [← findNextLoop_eq_find]
          exact hn2
        have h2 := (elig_iff tasks t).mpr he
        exact List.find?_eq_none.mp hf t ht h2
    · intro hc
      exact absurd hc hns

/-- Witness for C1: on an acyclic list the selection succeeds, on a
pending two-cycle the cyclic error carries a genuine cycle. -/
theorem claim_C1_findNextTask_witness :
    (∃ r, findNextTask cAcy = Except.ok r) ∧
    (∃ c, findNextTask cCyc = Except.error c ∧ IsCycleIn (pendingOf cCyc) c) := by
  constructor
  · have hns : ¬ HasCycle (pendingOf cAcy) :=
      not_hasCycle_of_all_safe (detectCycles_complete (by rfl))
    exact ((claim_C1_findNextTask cAcy).1 hns).2.2
  · have h12 : Edge (pendingOf cCyc) "001" "002" :=
      ⟨wTask "001" TaskStatus.pending ["002"], by rfl, by decide⟩
    have h21 : Edge (pendingOf cCyc) "002" "001" :=
      ⟨wTask "002" TaskStatus.pending ["001"], by rfl, by decide⟩
    have hc : HasCycle (pendingOf cCyc) :=
      ⟨"001", Relation.TransGen.head h12 (Relation.TransGen.single h21)⟩
    exact (claim_C1_findNextTask cCyc).2 hc

end FlowPilot
